import Mathlib

/-
  Verification development for the SAP Community scraper
  (src/scraper/sap_community_scraper.py).

  The page-content extraction engine is shallowly embedded: the parsed DOM
  is a tree of text and element nodes, and every function of the extraction
  core is translated into a total Lean function over that tree.  Machine
  strings are Lean strings manipulated through their character lists.
-/

namespace SapScraper

/-! ## Character and string helpers -/

/-- Decimal digit test, as used by the `\d` regex class (ASCII). -/
def isDigitC (c : Char) : Bool := '0' ≤ c && c ≤ '9'

/-- ASCII letter test, as used by the `[A-Za-z]` regex class. -/
def isAlphaC (c : Char) : Bool := ('a' ≤ c && c ≤ 'z') || ('A' ≤ c && c ≤ 'Z')

/-- Word-character test for the `\b` regex boundary: `[A-Za-z0-9_]`. -/
def isWordC (c : Char) : Bool := isAlphaC c || isDigitC c || c = '_'

/-- Whitespace as recognized by the Python `\s` class and `str.strip` for
the characters that occur in practice: ASCII whitespace, the C1 and
file-separator controls, NEL, and the Unicode space separators. -/
def isPySpace (c : Char) : Bool :=
  c = ' ' || c = '\t' || c = '\n' || c = '\x0d' ||
  c = '\x0b' || c = '\x0c' ||
  c = '\x1c' || c = '\x1d' || c = '\x1e' || c = '\x1f' ||
  c = '\x85' || c = '\u00A0' || c = '\u1680' ||
  ('\u2000' ≤ c && c ≤ '\u200A') ||
  c = '\u2028' || c = '\u2029' || c = '\u202F' || c = '\u205F' || c = '\u3000'

/-- ASCII lower-casing of one character, modelling `str.lower` on the
alphabets exercised by the scraper. -/
def charLower (c : Char) : Char :=
  if 'A' ≤ c && c ≤ 'Z' then Char.ofNat (c.toNat + 32) else c

/-- Lower-case a character list. -/
def lowerCL (cs : List Char) : List Char := cs.map charLower

/-- Lower-case a string (models `str.lower`). -/
def lowerStr (s : String) : String := String.mk (lowerCL s.data)

/-- Strip leading whitespace from a character list. -/
def dropWsLeft (cs : List Char) : List Char := cs.dropWhile isPySpace

/-- Strip whitespace from both ends (models `str.strip`). -/
def stripCL (cs : List Char) : List Char :=
  ((cs.dropWhile isPySpace).reverse.dropWhile isPySpace).reverse

/-- `str.strip` on strings. -/
def pyStrip (s : String) : String := String.mk (stripCL s.data)

/-- Strip a given character from both ends (models `str.strip("/")`). -/
def stripCharCL (ch : Char) (cs : List Char) : List Char :=
  ((cs.dropWhile (· = ch)).reverse.dropWhile (· = ch)).reverse

/-- Substring test on character lists (an unanchored regex literal). -/
def hasSubCL (pat : List Char) : List Char → Bool
  | [] => pat.isPrefixOf []
  | c :: rest => pat.isPrefixOf (c :: rest) || hasSubCL pat rest

/-- Substring test on strings. -/
def hasSub (pat s : String) : Bool := hasSubCL pat.data s.data

/-- `startswith` on strings. -/
def pyStartsWith (pat s : String) : Bool := pat.data.isPrefixOf s.data

/-- True when the next character (if any) is not a word character: the
right-hand side of a `\b` boundary. -/
def boundaryAfter : List Char → Bool
  | [] => true
  | c :: _ => !isWordC c

/-- Occurrence of `pat` with `\b` boundaries on both sides, starting
anywhere in `s`; `prevWord` records whether the character just before the
current position is a word character. -/
def hasBoundedAux (pat : List Char) (prevWord : Bool) : List Char → Bool
  | [] => !prevWord && pat.isPrefixOf [] && boundaryAfter []
  | c :: rest =>
      (!prevWord && pat.isPrefixOf (c :: rest) &&
        boundaryAfter (List.drop pat.length (c :: rest))) ||
      hasBoundedAux pat (isWordC c) rest

/-- Search for `\b pat \b` in a string (pattern given already lower-cased
when the regex carries `re.I`). -/
def hasBoundedSub (pat : List Char) (s : List Char) : Bool :=
  hasBoundedAux pat false s

/-- First maximal run of decimal digits in a character list (the regex
`re.search(r"\d+", s)` followed by `int(...)`). -/
def firstDigitRun : List Char → Option (List Char)
  | [] => none
  | c :: rest =>
      if isDigitC c then some (c :: rest.takeWhile isDigitC)
      else firstDigitRun rest

/-- Digit list to a natural number. -/
def digitsToNat (ds : List Char) : Nat :=
  ds.foldl (fun acc c => acc * 10 + (c.toNat - 48)) 0

/-- `int(re.search(r"\d+", s).group(0))` when a digit is present. -/
def firstNumber (s : String) : Option Nat :=
  (firstDigitRun s.data).map digitsToNat

/-- Join a list of strings with a separator (models `str.join`). -/
def joinSep (sep : String) : List String → String
  | [] => ""
  | [s] => s
  | s :: rest => s ++ sep ++ joinSep sep rest

/-- Concatenate a list of strings. -/
def joinAll (ss : List String) : String := joinSep "" ss

/-- Split a character list on one separator character. -/
def splitOnCharCL (sep : Char) : List Char → List (List Char)
  | [] => [[]]
  | c :: rest =>
      let r := splitOnCharCL sep rest
      if c = sep then [] :: r
      else match r with
        | [] => [[c]]
        | w :: ws => (c :: w) :: ws

/-- Split a string on one separator character (models `str.split(sep)` for
a one-character separator, keeping empty fields). -/
def splitOnChar (sep : Char) (s : String) : List String :=
  (splitOnCharCL sep s.data).map String.mk

/-- Split on whitespace runs, dropping empty fields (models the token
split that BeautifulSoup applies to the `class` attribute). -/
def splitWs (s : String) : List String :=
  ((s.data.splitOnP (fun c => isPySpace c)).filter (fun w => w ≠ [])).map String.mk

/-! ## The DOM model

A parsed page is a tree of text nodes (`NavigableString`) and element
nodes (`Tag`) carrying a name, an ordered attribute list and ordered
children.  Attribute values are kept as the raw strings of the markup. -/

inductive Node where
  | text (s : String)
  | elem (name : String) (attrs : List (String × String)) (children : List Node)

instance : Inhabited Node := ⟨.text ""⟩

mutual

/-- Structural equality of DOM nodes, matching the recursive `__eq__` of
BeautifulSoup tags (same name, same attributes, same contents). -/
def beqN : Node → Node → Bool
  | .text s, .text t => s = t
  | .elem n1 a1 c1, .elem n2 a2 c2 => n1 = n2 && a1 = a2 && beqL c1 c2
  | _, _ => false

/-- Structural equality of node lists. -/
def beqL : List Node → List Node → Bool
  | [], [] => true
  | x :: xs, y :: ys => beqN x y && beqL xs ys
  | _, _ => false

end

mutual

theorem beqN_eq : ∀ {a b : Node}, beqN a b = true → a = b
  | .text s, .text t, h => by
      simp only [beqN, decide_eq_true_eq] at h; rw [h]
  | .elem n1 a1 c1, .elem n2 a2 c2, h => by
      simp only [beqN, Bool.and_eq_true, decide_eq_true_eq] at h
      obtain ⟨⟨h1, h2⟩, h3⟩ := h
      rw [h1, h2, beqL_eq h3]
  | .text _, .elem _ _ _, h => by simp [beqN] at h
  | .elem _ _ _, .text _, h => by simp [beqN] at h

theorem beqL_eq : ∀ {l1 l2 : List Node}, beqL l1 l2 = true → l1 = l2
  | [], [], _ => rfl
  | x :: xs, y :: ys, h => by
      simp only [beqL, Bool.and_eq_true] at h
      rw [beqN_eq h.1, beqL_eq h.2]
  | [], _ :: _, h => by simp [beqL] at h
  | _ :: _, [], h => by simp [beqL] at h

end

mutual

theorem beqN_refl : ∀ (a : Node), beqN a a = true
  | .text s => by simp [beqN]
  | .elem n a c => by simp [beqN, beqL_refl c]

theorem beqL_refl : ∀ (l : List Node), beqL l l = true
  | [] => rfl
  | x :: xs => by simp [beqL, beqN_refl x, beqL_refl xs]

end

instance : DecidableEq Node := fun a b =>
  if h : beqN a b = true then .isTrue (beqN_eq h)
  else .isFalse (fun e => h (e ▸ beqN_refl a))

namespace Node

/-- Attribute lookup (`tag.get(name)`), first occurrence wins. -/
def attr (n : Node) (key : String) : Option String :=
  match n with
  | .text _ => none
  | .elem _ attrs _ => (attrs.find? (fun p => p.1 = key)).map Prod.snd

/-- `tag.has_attr(name)`. -/
def hasAttr (n : Node) (key : String) : Bool := (n.attr key).isSome

/-- Tag name, lower-cased as the HTML parser produces it. -/
def nameLower (n : Node) : String :=
  match n with
  | .text _ => ""
  | .elem nm _ _ => lowerStr nm

/-- The class tokens of an element (`tag.get("class", [])`: the parser
splits the `class` attribute on whitespace). -/
def classes (n : Node) : List String :=
  match n.attr "class" with
  | none => []
  | some v => splitWs v

/-- `" ".join(tag.get("class", []))`. -/
def classStr (n : Node) : String := joinSep " " n.classes

/-- Is this an element node. -/
def isElem (n : Node) : Bool :=
  match n with
  | .text _ => false
  | .elem _ _ _ => true

/-- Direct children. -/
def childrenOf (n : Node) : List Node :=
  match n with
  | .text _ => []
  | .elem _ _ cs => cs

end Node

mutual

/-- All strict descendants of a node in document (pre) order, text nodes
included.  This is the iteration order of BeautifulSoup `descendants`,
which underlies `find`, `find_all` and `select`. -/
def subnodes : Node → List Node
  | .text _ => []
  | .elem _ _ cs => subnodesL cs

/-- Descendants of a forest: each root followed by its own descendants. -/
def subnodesL : List Node → List Node
  | [] => []
  | c :: cs => c :: (subnodes c ++ subnodesL cs)

end

/-- Strict descendant elements in document order (`find_all(True)`). -/
def subelems (n : Node) : List Node := (subnodes n).filter Node.isElem

/-- The strings of all descendant text nodes in document order
(BeautifulSoup `strings`). -/
def textsUnder (n : Node) : List String :=
  (subnodes n).filterMap (fun c => match c with | .text s => some s | _ => none)

/-- `tag.get_text(separator, strip)`: join the descendant strings; with
`strip=True` each string is stripped first and empty ones are dropped. -/
def getText (sep : String) (strip : Bool) (n : Node) : String :=
  if strip then joinSep sep (((textsUnder n).map pyStrip).filter (fun s => s ≠ ""))
  else joinSep sep (textsUnder n)

mutual

/-- Traversal worker: strict descendants of `n` paired with their ancestor
chains, `anc` being the chain of `n` itself (nearest ancestor first). -/
def subAncN (anc : List Node) : Node → List (List Node × Node)
  | .text _ => []
  | .elem nm a cs => subAncL (Node.elem nm a cs :: anc) cs

/-- Traversal worker over a forest of siblings sharing the chain `anc`. -/
def subAncL (anc : List Node) : List Node → List (List Node × Node)
  | [] => []
  | c :: cs => (anc, c) :: (subAncN anc c ++ subAncL anc cs)

end

/-- Strict descendants paired with their ancestor chains.  The chain
lists the ancestors from the nearest one outward and ends with the node
the traversal started from, so CSS descendant combinators can consult it. -/
def subnodesAnc (start : Node) : List (List Node × Node) :=
  subAncN [] start

/-- First strict descendant satisfying a predicate (`tag.find`). -/
def findFirst (p : Node → Bool) (n : Node) : Option Node :=
  (subnodes n).find? p

/-- All strict descendants satisfying a predicate (`tag.find_all` /
`soup.select` with a selector that needs no ancestor context). -/
def findAll (p : Node → Bool) (n : Node) : List Node :=
  (subnodes n).filter p

/-- All strict descendants whose node and ancestor chain satisfy a
predicate, for selectors with descendant combinators. -/
def findAllAnc (p : List Node → Node → Bool) (n : Node) : List Node :=
  ((subnodesAnc n).filter (fun e => p e.1 e.2)).map Prod.snd

/-- `tag.string`: the single descendant string when the element chains
down through single children to one text node. -/
def Node.string : Node → Option String
  | .text s => some s
  | .elem _ _ [c] => Node.string c
  | .elem _ _ _ => none

/-! ## Regex scanners used by the scraper -/

/-- `re.match(r"M(\d+)", s)`: an `M` at the start followed by at least
one digit; returns the maximal digit run. -/
def matchMDigits (s : String) : Option String :=
  match s.data with
  | 'M' :: d :: rest =>
      if isDigitC d then some (String.mk (d :: rest.takeWhile isDigitC)) else none
  | _ => none

/-- `re.compile(r"^M\d+$").search(s)`: the whole value is `M` followed by
at least one digit. -/
def idFullM (s : String) : Bool :=
  match s.data with
  | 'M' :: d :: rest => isDigitC d && rest.all isDigitC
  | _ => false

/-- Scanner for `re.search(r"#M(\d+)", s)`: first `#M` followed by a
digit; returns the maximal digit run. -/
def searchHashMCL : List Char → Option String
  | '#' :: 'M' :: d :: rest =>
      if isDigitC d then some (String.mk (d :: rest.takeWhile isDigitC))
      else searchHashMCL ('M' :: d :: rest)
  | _ :: rest => searchHashMCL rest
  | [] => none

/-- `re.search(r"#M(\d+)", s)`. -/
def searchHashM (s : String) : Option String := searchHashMCL s.data

/-- Scanner for `re.search(r"message-(\d+)", s)`: first literal
`message-` followed by a digit; returns the maximal digit run. -/
def searchMessageNumCL : List Char → Option String
  | [] => none
  | c :: rest =>
      if "message-".data.isPrefixOf (c :: rest) then
        match (c :: rest).drop 8 with
        | d :: rest2 =>
            if isDigitC d then some (String.mk (d :: rest2.takeWhile isDigitC))
            else searchMessageNumCL rest
        | [] => searchMessageNumCL rest
      else searchMessageNumCL rest

/-- `re.search(r"message-(\d+)", s)`. -/
def searchMessageNum (s : String) : Option String := searchMessageNumCL s.data

/-- Try the ISO pattern
`\d{4}-\d{2}-\d{2}T\d{2}:\d{2}:\d{2}(?:\.\d+)?(?:Z|[+\-]\d{2}:\d{2})?`
anchored at the head of the character list, returning the matched
characters.  The fractional part and the offset are greedy and optional. -/
def isoTryAt (cs : List Char) : Option (List Char) :=
  match cs with
  | y1 :: y2 :: y3 :: y4 :: '-' :: m1 :: m2 :: '-' :: d1 :: d2 :: 'T' ::
      h1 :: h2 :: ':' :: n1 :: n2 :: ':' :: s1 :: s2 :: rest =>
      if [y1, y2, y3, y4, m1, m2, d1, d2, h1, h2, n1, n2, s1, s2].all isDigitC then
        let core := [y1, y2, y3, y4, '-', m1, m2, '-', d1, d2, 'T',
                     h1, h2, ':', n1, n2, ':', s1, s2]
        let (frac, afterFrac) :=
          match rest with
          | '.' :: f :: fs =>
              if isDigitC f then
                ('.' :: f :: fs.takeWhile isDigitC, fs.dropWhile isDigitC)
              else ([], rest)
          | _ => ([], rest)
        let tz :=
          match afterFrac with
          | 'Z' :: _ => ['Z']
          | '+' :: a :: b :: ':' :: c :: d :: _ =>
              if [a, b, c, d].all isDigitC then ['+', a, b, ':', c, d] else []
          | '-' :: a :: b :: ':' :: c :: d :: _ =>
              if [a, b, c, d].all isDigitC then ['-', a, b, ':', c, d] else []
          | _ => []
        some (core ++ frac ++ tz)
      else none
  | _ => none

/-- Scanner for `ISO_PATTERN.search(s)`: leftmost match wins. -/
def isoSearchCL : List Char → Option (List Char)
  | [] => none
  | c :: rest =>
      match isoTryAt (c :: rest) with
      | some m => some m
      | none => isoSearchCL rest

/-- `ISO_PATTERN.search(s).group(0)` as an optional string. -/
def isoSearch (s : String) : Option String := (isoSearchCL s.data).map String.mk

/-- Worker for `normalize_whitespace`: drop the LRM/RLM marks, replace
non-breaking spaces, collapse whitespace runs to a single space and strip. -/
def normalizeWS (s : String) : String :=
  let cs := s.data.filter (fun c => c ≠ '\u200E' && c ≠ '\u200F')
  let cs := cs.map (fun c => if c = '\u00A0' then ' ' else c)
  let ws := joinSep " " (((cs.splitOnP isPySpace).filter (fun w => w ≠ [])).map String.mk)
  ws

/-- `normalize_whitespace(s)` with the Optional signature of the source. -/
def normalize_whitespace (s : Option String) : Option String := s.map normalizeWS

/-- `uniq_push(arr, val)`: append the stripped value unless it is empty or
already present up to letter case. -/
def uniq_push (arr : List String) (val : Option String) : List String :=
  match val with
  | none => arr
  | some v =>
      if v = "" then arr
      else
        let vn := pyStrip v
        if vn = "" then arr
        else if arr.any (fun x => lowerStr x = lowerStr vn) then arr
        else arr ++ [vn]

/-- The question-marker class regex
`qanda[- ]?question|message-view-qanda-question|thread-topic|lia-message-view-question`
searched in the lower-cased joined class string. -/
def questionClassSearch (classesLower : String) : Bool :=
  hasSub "qanda-question" classesLower || hasSub "qanda question" classesLower ||
  hasSub "qandaquestion" classesLower ||
  hasSub "message-view-qanda-question" classesLower ||
  hasSub "thread-topic" classesLower ||
  hasSub "lia-message-view-question" classesLower

/-- `ACCEPTED_CLASS_RE` (case-insensitive, word-bounded alternatives)
searched in a joined class string. -/
def acceptedClassSearch (classStr : String) : Bool :=
  let l := lowerCL classStr.data
  hasBoundedSub "lia-accepted-solution".data l ||
  hasBoundedSub "lia-solution-accepted".data l ||
  hasBoundedSub "lia-message-accepted-solution".data l ||
  hasBoundedSub "lia-list-row-thread-solved".data l ||
  hasBoundedSub "accepted".data l ||
  hasBoundedSub "solution".data l

/-- After the word `accepted`, the hint regex requires at least one
whitespace character and then `Solution` or `Answer(s)` closed by a word
boundary (matching on lower-cased text). -/
def acceptedHintTail (cs : List Char) : Bool :=
  let ws := cs.takeWhile isPySpace
  let rest := cs.dropWhile isPySpace
  ws ≠ [] &&
  ((("solution".data.isPrefixOf rest) && boundaryAfter (rest.drop 8)) ||
   (("answers".data.isPrefixOf rest) && boundaryAfter (rest.drop 7)) ||
   (("answer".data.isPrefixOf rest) && boundaryAfter (rest.drop 6)))

/-- Scanner for `ACCEPTED_HINT_TEXT`
(`\bAccepted\s+Solution\b|\bAccepted\s+Answers?\b`, case-insensitive). -/
def acceptedHintAux (prevWord : Bool) : List Char → Bool
  | [] => false
  | c :: rest =>
      (!prevWord && "accepted".data.isPrefixOf (c :: rest) &&
        acceptedHintTail ((c :: rest).drop 8)) ||
      acceptedHintAux (isWordC c) rest

/-- `ACCEPTED_HINT_TEXT.search(s)` as a Boolean. -/
def acceptedHintSearch (s : String) : Bool :=
  acceptedHintAux false (lowerCL s.data)

/-! ## JSON values and a strict parser modelling `json.loads`

Numbers are kept as a scaled integer (mantissa and a power of ten); the
special constants `NaN`/`Infinity` accepted by the Python decoder get
their own constructors.  Lone surrogate escapes, which Lean characters
cannot carry, decode to U+FFFD; this changes only the decoded text, never
whether a document parses. -/

inductive Json where
  | null
  | bool (b : Bool)
  | num (mantissa : Int) (exp10 : Int)
  | nan
  | inf (neg : Bool)
  | str (s : String)
  | arr (elems : List Json)
  | obj (entries : List (String × Json))

/-- Python truthiness of a JSON value (`if not value`). -/
def jsonTruthy : Json → Bool
  | .null => false
  | .bool b => b
  | .num m _ => m ≠ 0
  | .nan => true
  | .inf _ => true
  | .str s => s ≠ ""
  | .arr xs => !xs.isEmpty
  | .obj kvs => !kvs.isEmpty

/-- `dict.get` on an object: the last occurrence of a duplicated key wins,
as in the Python decoder; `none` on a missing key.  Non-object values are
handled at each call site (Python would raise there). -/
def objGet (kvs : List (String × Json)) (k : String) : Option Json :=
  (kvs.reverse.find? (fun p => p.1 = k)).map Prod.snd

/-- `a or b or ... or dflt` over optional JSON values. -/
def firstTruthyJ (dflt : Json) : List (Option Json) → Json
  | [] => dflt
  | o :: rest =>
      match o with
      | some v => if jsonTruthy v then v else firstTruthyJ dflt rest
      | none => firstTruthyJ dflt rest

/-- JSON whitespace accepted between tokens by the decoder. -/
def jsonWsC (c : Char) : Bool := c = ' ' || c = '\t' || c = '\n' || c = '\x0d'

/-- Skip JSON whitespace. -/
def skipJsonWs (cs : List Char) : List Char := cs.dropWhile jsonWsC

/-- Hexadecimal digit value. -/
def hexVal (c : Char) : Option Nat :=
  if isDigitC c then some (c.toNat - 48)
  else if 'a' ≤ c && c ≤ 'f' then some (c.toNat - 87)
  else if 'A' ≤ c && c ≤ 'F' then some (c.toNat - 55)
  else none

/-- Code point from a scalar value, replacing the surrogate range by
U+FFFD (see the note on the JSON model). -/
def charOfScalar (n : Nat) : Char :=
  if n < 0xd800 ∨ (0xdfff < n ∧ n < 0x110000) then Char.ofNat n
  else Char.ofNat 0xfffd

/-- Body of a JSON string after the opening quote: returns the decoded
characters and the remainder after the closing quote.  Raw control
characters are rejected (strict mode), escapes follow the JSON grammar
with `\uXXXX` surrogate pairs combined. -/
def parseJStringBody (fuel : Nat) (cs : List Char) : Option (List Char × List Char) :=
  match fuel with
  | 0 => none
  | fuel + 1 =>
      match cs with
      | [] => none
      | '"' :: rest => some ([], rest)
      | '\\' :: e :: rest =>
          let simpleEsc : Option Char :=
            if e = '"' then some '"' else if e = '\\' then some '\\'
            else if e = '/' then some '/' else if e = 'b' then some '\x08'
            else if e = 'f' then some '\x0c' else if e = 'n' then some '\n'
            else if e = 'r' then some '\x0d' else if e = 't' then some '\t'
            else none
          (match simpleEsc with
           | some c =>
               (parseJStringBody fuel rest).map (fun r => (c :: r.1, r.2))
           | none =>
               if e = 'u' then
                 match rest with
                 | a :: b :: c :: d :: rest2 =>
                     match hexVal a, hexVal b, hexVal c, hexVal d with
                     | some va, some vb, some vc, some vd =>
                         let u := ((va * 16 + vb) * 16 + vc) * 16 + vd
                         if 0xd800 ≤ u ∧ u ≤ 0xdbff then
                           match rest2 with
                           | '\\' :: 'u' :: a2 :: b2 :: c2 :: d2 :: rest3 =>
                               match hexVal a2, hexVal b2, hexVal c2, hexVal d2 with
                               | some wa, some wb, some wc, some wd =>
                                   let u2 := ((wa * 16 + wb) * 16 + wc) * 16 + wd
                                   if 0xdc00 ≤ u2 ∧ u2 ≤ 0xdfff then
                                     let cp := 0x10000 + (u - 0xd800) * 0x400 + (u2 - 0xdc00)
                                     (parseJStringBody fuel rest3).map
                                       (fun r => (charOfScalar cp :: r.1, r.2))
                                   else
                                     (parseJStringBody fuel rest2).map
                                       (fun r => (charOfScalar u :: r.1, r.2))
                               | _, _, _, _ =>
                                   (parseJStringBody fuel rest2).map
                                     (fun r => (charOfScalar u :: r.1, r.2))
                           | _ =>
                               (parseJStringBody fuel rest2).map
                                 (fun r => (charOfScalar u :: r.1, r.2))
                         else
                           (parseJStringBody fuel rest2).map
                             (fun r => (charOfScalar u :: r.1, r.2))
                     | _, _, _, _ => none
                 | _ => none
               else none)
      | c :: rest =>
          if c.toNat < 0x20 then none
          else (parseJStringBody fuel rest).map (fun r => (c :: r.1, r.2))

/-- A JSON number at the head of the input:
`-?(0|[1-9]\d*)(\.\d+)?([eE][+-]?\d+)?`, returned as mantissa and power of
ten together with the remainder. -/
def parseJNum (cs : List Char) : Option (Json × List Char) :=
  let (neg, cs1) := match cs with
    | '-' :: rest => (true, rest)
    | _ => (false, cs)
  match cs1 with
  | c :: rest =>
      if ¬ isDigitC c then none
      else if c = '0' ∧ (rest.headD ' ' |> isDigitC) then none
      else
        let intDigits := if c = '0' then ['0'] else c :: rest.takeWhile isDigitC
        let rest1 := if c = '0' then rest else rest.dropWhile isDigitC
        let (fracDigits, rest2) :=
          match rest1 with
          | '.' :: f :: fs =>
              if isDigitC f then (f :: fs.takeWhile isDigitC, fs.dropWhile isDigitC)
              else ([], rest1)
          | _ => ([], rest1)
        let fracOk : Bool := match rest1 with
          | '.' :: f :: _ => isDigitC f
          | '.' :: [] => false
          | _ => true
        let (expVal, rest3, expOk) :=
          match rest2 with
          | e :: es =>
              if e = 'e' ∨ e = 'E' then
                let (eneg, es1) := match es with
                  | '+' :: t => (false, t)
                  | '-' :: t => (true, t)
                  | _ => (false, es)
                match es1 with
                | d :: _ =>
                    if isDigitC d then
                      let ds := es1.takeWhile isDigitC
                      let v : Int := Int.ofNat (digitsToNat ds)
                      ((if eneg then -v else v), es1.dropWhile isDigitC, true)
                    else (0, rest2, false)
                | [] => (0, rest2, false)
              else (0, rest2, true)
          | [] => (0, rest2, true)
      if fracOk ∧ expOk then
        let mAbs : Int := Int.ofNat (digitsToNat (intDigits ++ fracDigits))
        let m : Int := if neg then -mAbs else mAbs
        some (Json.num m (expVal - Int.ofNat fracDigits.length), rest3)
      else none
  | [] => none

mutual

/-- A JSON value at the head of the input (no leading whitespace), with
the remainder; `fuel` bounds the nesting and always suffices because each
nested value consumes at least one character first. -/
def parseJValue (fuel : Nat) (cs : List Char) : Option (Json × List Char) :=
  match fuel with
  | 0 => none
  | fuel + 1 =>
      match cs with
      | '"' :: rest =>
          (parseJStringBody (rest.length + 1) rest).map
            (fun r => (Json.str (String.mk r.1), r.2))
      | '{' :: rest => parseJObj fuel (skipJsonWs rest)
      | '[' :: rest => parseJArr fuel (skipJsonWs rest)
      | _ =>
          if "true".data.isPrefixOf cs then some (Json.bool true, cs.drop 4)
          else if "false".data.isPrefixOf cs then some (Json.bool false, cs.drop 5)
          else if "null".data.isPrefixOf cs then some (Json.null, cs.drop 4)
          else if "NaN".data.isPrefixOf cs then some (Json.nan, cs.drop 3)
          else if "Infinity".data.isPrefixOf cs then some (Json.inf false, cs.drop 8)
          else if "-Infinity".data.isPrefixOf cs then some (Json.inf true, cs.drop 9)
          else parseJNum cs

/-- Object members after `{` and leading whitespace. -/
def parseJObj (fuel : Nat) (cs : List Char) : Option (Json × List Char) :=
  match fuel with
  | 0 => none
  | fuel + 1 =>
      match cs with
      | '}' :: rest => some (Json.obj [], rest)
      | _ => parseJObjMembers fuel cs []

/-- One `"key": value` member, then `,` for more members or `}` to end. -/
def parseJObjMembers (fuel : Nat) (cs : List Char) (acc : List (String × Json)) :
    Option (Json × List Char) :=
  match fuel with
  | 0 => none
  | fuel + 1 =>
      match cs with
      | '"' :: rest =>
          match parseJStringBody (rest.length + 1) rest with
          | none => none
          | some (key, rest1) =>
              match skipJsonWs rest1 with
              | ':' :: rest2 =>
                  match parseJValue fuel (skipJsonWs rest2) with
                  | none => none
                  | some (v, rest3) =>
                      let acc := acc ++ [(String.mk key, v)]
                      match skipJsonWs rest3 with
                      | ',' :: rest4 => parseJObjMembers fuel (skipJsonWs rest4) acc
                      | '}' :: rest4 => some (Json.obj acc, rest4)
                      | _ => none
              | _ => none
      | _ => none

/-- Array elements after `[` and leading whitespace. -/
def parseJArr (fuel : Nat) (cs : List Char) : Option (Json × List Char) :=
  match fuel with
  | 0 => none
  | fuel + 1 =>
      match cs with
      | ']' :: rest => some (Json.arr [], rest)
      | _ => parseJArrElems fuel cs []

/-- One array element, then `,` for more elements or `]` to end. -/
def parseJArrElems (fuel : Nat) (cs : List Char) (acc : List Json) :
    Option (Json × List Char) :=
  match fuel with
  | 0 => none
  | fuel + 1 =>
      match parseJValue fuel cs with
      | none => none
      | some (v, rest) =>
          let acc := acc ++ [v]
          match skipJsonWs rest with
          | ',' :: rest2 => parseJArrElems fuel (skipJsonWs rest2) acc
          | ']' :: rest2 => some (Json.arr acc, rest2)
          | _ => none

end

/-- `json.loads`: parse one document, requiring only whitespace after it. -/
def json_loads (s : String) : Option Json :=
  match parseJValue (s.data.length + 1) (skipJsonWs s.data) with
  | some (v, rest) => if skipJsonWs rest = [] then some v else none
  | none => none

theorem length_dropWhile_le (p : Char → Bool) (l : List Char) :
    (l.dropWhile p).length ≤ l.length := by
  induction l with
  | nil => simp
  | cons c cs ih => rw [List.dropWhile]; split <;> simp <;> omega

/-- When a comma is followed by whitespace and the closing character,
return the input after the closer. -/
def commaCloseAfter (close : Char) (rest : List Char) : Option (List Char) :=
  match rest.dropWhile isPySpace with
  | d :: rest2 => if d = close then some rest2 else none
  | [] => none

theorem commaCloseAfter_length {close : Char} {rest r2 : List Char}
    (h : commaCloseAfter close rest = some r2) : r2.length < rest.length := by
  unfold commaCloseAfter at h
  have hle := length_dropWhile_le isPySpace rest
  revert h hle
  cases hdw : rest.dropWhile isPySpace with
  | nil => intro h _; cases h
  | cons d rest2 =>
      intro h hle
      by_cases hd : d = close
      · simp [hd] at h; subst h; simp at hle; omega
      · simp [hd] at h

/-- One pass of `re.sub(r",\s*C", "C", s)` for a closing character `C`:
a comma followed by whitespace and the closer collapses to the closer,
scanning left to right.  The fuel bounds the scanned positions; starting
it at the input length always suffices because every step consumes at
least one character. -/
def fixCommaBeforeAux (close : Char) : Nat → List Char → List Char
  | 0, cs => cs
  | _, [] => []
  | fuel + 1, c :: rest =>
      if c = ',' then
        match commaCloseAfter close rest with
        | some rest2 => close :: fixCommaBeforeAux close fuel rest2
        | none => ',' :: fixCommaBeforeAux close fuel rest
      else c :: fixCommaBeforeAux close fuel rest

/-- The scanning pass at full fuel. -/
def fixCommaBefore (close : Char) (cs : List Char) : List Char :=
  fixCommaBeforeAux close cs.length cs

/-- The trailing-comma repair applied between the two parse attempts:
first `,\s*}` then `,\s*]`. -/
def fixTrailingCommas (s : String) : String :=
  String.mk (fixCommaBefore ']' (fixCommaBefore '}' s.data))

/-! ## Structured-data (JSON-LD) extraction -/

/-- The stripped contents of every
`<script type="application/ld+json">` block, in document order
(`tag.string or tag.text or ""` then `strip`). -/
def ldScriptContents (soup : Node) : List String :=
  (findAll (fun n => n.nameLower = "script" &&
      n.attr "type" = some "application/ld+json") soup).map
    (fun t => pyStrip ((Node.string t).getD (getText "" false t)))

/-- The decoder step of `extract_json_ld` on a list of block contents:
empty blocks are skipped; a block that fails to parse gets the
trailing-comma repair and one more attempt; a block failing both is
skipped. -/
def extract_json_ld_blocks (contents : List String) : List Json :=
  contents.filterMap (fun content =>
    if content = "" then none
    else
      match json_loads content with
      | some b => some b
      | none => json_loads (fixTrailingCommas content))

/-- `extract_json_ld(soup)`. -/
def extract_json_ld (soup : Node) : List Json :=
  extract_json_ld_blocks (ldScriptContents soup)

/-- Scan the `acceptedAnswer` entries of a QAPage main entity: each entry
must be a mapping or the Python loop raises, aborting the rest of the
block (second component `true`); a string URL is searched for `#M(\d+)`.
A non-string truthy URL would make `re.search` raise, aborting too. -/
def accScanAnswers : List Json → List String × Bool
  | [] => ([], false)
  | a :: rest =>
      match a with
      | .obj kvs =>
          let url := firstTruthyJ (.str "") [objGet kvs "url", objGet kvs "mainEntityOfPage"]
          match url with
          | .str s =>
              let found := (searchHashM s).toList
              let (more, ab) := accScanAnswers rest
              (found ++ more, ab)
          | _ => ([], true)
      | _ => ([], true)

/-- The iterable view of the `@type` value: a string is wrapped in a
one-element list, a list is used as is, and iterating a mapping yields its
keys; any other truthy value is not iterable and raises. -/
def typesIter : Json → Option (List Json)
  | .str s => some [.str s]
  | .arr xs => some xs
  | .obj kvs => some (kvs.map (fun p => Json.str p.1))
  | _ => none

/-- Does `str(t).lower() == "qapage"` hold; only string entries can
produce the literal `qapage`. -/
def typeIsQaPage : Json → Bool
  | .str s => lowerStr s = "qapage"
  | _ => false

/-- Process one node of a structured-data block: identifiers found, plus
whether an exception aborted the enclosing block. -/
def accScanEntry (node : Json) : List String × Bool :=
  match node with
  | .obj kvs =>
      let types := firstTruthyJ (.arr []) [objGet kvs "@type", objGet kvs "type"]
      match typesIter types with
      | none => ([], true)
      | some ts =>
          if ¬ ts.any typeIsQaPage then ([], false)
          else
            let main0 := firstTruthyJ (.obj []) [objGet kvs "mainEntity"]
            let main1 := match main0 with
              | .arr (x :: _) => x
              | other => other
            match main1 with
            | .obj mkvs =>
                match objGet mkvs "acceptedAnswer" with
                | some v =>
                    if jsonTruthy v then
                      match v with
                      | .arr xs => accScanAnswers xs
                      | single => accScanAnswers [single]
                    else ([], false)
                | none => ([], false)
            | _ => ([], true)
  | _ => ([], true)

/-- Process the nodes of one block in order, stopping after the first
exception but keeping the identifiers gathered before it. -/
def accScanEntries : List Json → List String
  | [] => []
  | node :: rest =>
      let (ids, ab) := accScanEntry node
      if ab then ids else ids ++ accScanEntries rest

/-- Identifiers contributed by one structured-data block: a non-mapping
block raises on `block.get` at once and contributes nothing. -/
def accScanBlock (block : Json) : List String :=
  match block with
  | .obj kvs =>
      let nodes := match objGet kvs "@graph" with
        | some (.arr xs) => xs
        | _ => [block]
      accScanEntries nodes
  | _ => []

/-- `extract_json_ld_accepted_ids(soup)`.  The Python function returns a
set; only membership is consumed downstream, so the list of gathered
identifiers (possibly with repetitions) is an equivalent model. -/
def extract_json_ld_accepted_ids (soup : Node) : List String :=
  (extract_json_ld soup).flatMap accScanBlock

/-! ## URL handling -/

/-- Does the string start with a URI scheme (`letter (letter|digit|+|-|.)* :`). -/
def hasScheme (cs : List Char) : Bool :=
  match cs with
  | c :: rest =>
      isAlphaC c &&
      (rest.dropWhile (fun d => isAlphaC d || isDigitC d || d = '+' || d = '-' || d = '.')
        |>.headD ' ') = ':'
  | [] => false

/-- Split `scheme://netloc` from the rest of a URL, when present. -/
def splitNetloc (cs : List Char) : Option (List Char × List Char) :=
  if hasScheme cs then
    let afterScheme := (cs.dropWhile (· ≠ ':')).drop 1
    match afterScheme with
    | '/' :: '/' :: rest =>
        let netloc := rest.takeWhile (fun c => c ≠ '/' && c ≠ '?' && c ≠ '#')
        let tail := rest.dropWhile (fun c => c ≠ '/' && c ≠ '?' && c ≠ '#')
        some ((cs.takeWhile (· ≠ ':')) ++ ':' :: '/' :: '/' :: netloc, tail)
    | _ => none
  else none

/-- The path component of a URL (`urlparse(url).path`): what follows the
authority, cut at the first `?` or `#`. -/
def urlPath (u : String) : String :=
  let cs := u.data
  let afterAuth :=
    match splitNetloc cs with
    | some (_, tail) => tail
    | none => cs
  String.mk (afterAuth.takeWhile (fun c => c ≠ '?' && c ≠ '#'))

/-- Modelled `urllib.parse.urljoin` for the URL shapes the scraper meets:
absolute references win, `//`, `/`, `?` and `#` references replace the
corresponding suffix of the base, and any other relative reference
replaces the last path segment (dot segments are not normalized, which
none of the scraped links use). -/
def urljoin (base rel : String) : String :=
  let b := base.data
  let r := rel.data
  if r = [] then base
  else if hasScheme r then rel
  else
    match r with
    | '/' :: '/' :: _ =>
        if hasScheme b then String.mk (b.takeWhile (· ≠ ':') ++ ':' :: r) else rel
    | '/' :: _ =>
        match splitNetloc b with
        | some (root, _) => String.mk (root ++ r)
        | none => rel
    | '#' :: _ => String.mk (b.takeWhile (· ≠ '#') ++ r)
    | '?' :: _ => String.mk (b.takeWhile (fun c => c ≠ '?' && c ≠ '#') ++ r)
    | _ =>
        let (root, tail) :=
          match splitNetloc b with
          | some (root, tail) => (root, tail)
          | none => ([], b)
        let path := tail.takeWhile (fun c => c ≠ '?' && c ≠ '#')
        let dir := (path.reverse.dropWhile (· ≠ '/')).reverse
        String.mk (root ++ dir ++ r)

/-! ## The Conservative Renderer (`node_to_markdown`) -/

/-- `BLOCK_BREAK_TAGS`. -/
def isBlockBreakTag (name : String) : Bool :=
  name = "p" || name = "div" || name = "section" || name = "article"

/-- `LINE_BREAK_TAGS`. -/
def isLineBreakTag (name : String) : Bool :=
  name = "br" || name = "hr" || name = "li"

/-- `s.endswith("\n")`. -/
def endsWithNL (s : String) : Bool :=
  match s.data.reverse with
  | '\n' :: _ => true
  | _ => false

/-- `pieces and pieces[-1].endswith("\n")`. -/
def lastEndsNL (ps : List String) : Bool :=
  match ps.getLast? with
  | some p => endsWithNL p
  | none => false

theorem sizeOf_filter_le (p : Node → Bool) (l : List Node) :
    sizeOf (l.filter p) ≤ sizeOf l := by
  induction l with
  | nil => simp
  | cons c cs ih =>
      rw [List.filter]
      split
      · simp; omega
      · simp; omega

mutual

/-- The recursive `walk` of `node_to_markdown`: `pieces` is the
accumulated list of emitted fragments, returned extended by the visit of
`n`.  Tag names are compared lower-cased, as the HTML parser produces
them. -/
def walk (base_url : String) (pieces : List String) : Node → List String
  | .text s => pieces ++ [s]
  | .elem nm attrs cs =>
      let node := Node.elem nm attrs cs
      let name := lowerStr nm
      if name = "script" ∨ name = "style" ∨ name = "noscript" then pieces
      else if name = "a" then
        let href := pyStrip ((node.attr "href").getD "")
        let text := getText " " true node
        if pyStartsWith "@" text then pieces ++ [text]
        else if href ≠ "" then
          pieces ++ ["[" ++ text ++ "](" ++ urljoin base_url href ++ ")"]
        else pieces ++ [text]
      else if name = "img" then
        let src := pyStrip ((node.attr "src").getD "")
        let alt0 := pyStrip ((node.attr "alt").getD "")
        let alt := if alt0 ≠ "" then alt0 else pyStrip ((node.attr "title").getD "")
        if src ≠ "" then pieces ++ ["![" ++ alt ++ "](" ++ urljoin base_url src ++ ")"]
        else pieces
      else if name = "ul" ∨ name = "ol" then
        walkLis base_url pieces cs ++ ["\n"]
      else if name = "code" ∨ name = "kbd" then
        pieces ++ ["`" ++ getText "" true node ++ "`"]
      else if name = "strong" ∨ name = "b" ∨ name = "em" ∨ name = "i" ∨
          name = "u" ∨ name = "span" then
        walkL base_url pieces cs
      else if isBlockBreakTag name then
        let ps := if pieces ≠ [] ∧ ¬ lastEndsNL pieces then pieces ++ ["\n"] else pieces
        let ps := walkL base_url ps cs
        if ¬ (ps ≠ [] ∧ lastEndsNL ps) then ps ++ ["\n"] else ps
      else if isLineBreakTag name then
        walkL base_url pieces cs ++ ["\n"]
      else walkL base_url pieces cs

/-- Visit a list of children in order. -/
def walkL (base_url : String) (pieces : List String) : List Node → List String
  | [] => pieces
  | c :: cs => walkL base_url (walk base_url pieces c) cs

/-- Visit the direct children of a `ul`/`ol`, rendering exactly the `li`
ones, each item preceded by a dash marker (`find_all("li",
recursive=False)` keeps the document order of the direct children). -/
def walkLis (base_url : String) (pieces : List String) : List Node → List String
  | [] => pieces
  | c :: cs =>
      if c.nameLower = "li" then
        walkLis base_url (walk base_url (pieces ++ ["\n- "]) c) cs
      else walkLis base_url pieces cs

end

/-- Replace each maximal run of spaces and tabs by one space
(`re.sub(r"[ \t]+", " ", md)`). -/
def collapseSpaceTab : List Char → List Char
  | [] => []
  | [c] => [if c = ' ' || c = '\t' then ' ' else c]
  | c :: d :: rest =>
      if (c = ' ' || c = '\t') && (d = ' ' || d = '\t') then collapseSpaceTab (d :: rest)
      else (if c = ' ' || c = '\t' then ' ' else c) :: collapseSpaceTab (d :: rest)

/-- One whitespace run under `re.sub(r"\n\s*\n\s*\n+", "\n\n", md)`: with
three or more newlines, the span from the first to the last newline
collapses to a blank line; surrounding non-newline whitespace survives. -/
def collapseRun (run : List Char) : List Char :=
  if run.countP (fun c => c = '\n') ≥ 3 then
    run.takeWhile (· ≠ '\n') ++ '\n' :: '\n' ::
      (run.reverse.takeWhile (· ≠ '\n')).reverse
  else run

/-- Apply `collapseRun` to every maximal whitespace run; the fuel bounds
the scanned positions and the input length always suffices. -/
def collapseBlankLinesAux : Nat → List Char → List Char
  | 0, cs => cs
  | _, [] => []
  | fuel + 1, c :: rest =>
      if isPySpace c then
        collapseRun (c :: rest.takeWhile isPySpace) ++
          collapseBlankLinesAux fuel (rest.dropWhile isPySpace)
      else c :: collapseBlankLinesAux fuel rest

/-- Apply `collapseRun` to every maximal whitespace run. -/
def collapseBlankLines (cs : List Char) : List Char :=
  collapseBlankLinesAux cs.length cs

/-- The post-processing tail of `node_to_markdown`: space substitutions,
zero-width removal, whitespace collapsing and the final strip. -/
def postMarkdown (md : String) : String :=
  let cs := md.data.map (fun c =>
    if c = ' ' ∨ c = ' ' ∨ c = ' ' then ' ' else c)
  let cs := cs.filter (fun c => c ≠ '​' ∧ c ≠ '‌' ∧ c ≠ '‍')
  let cs := collapseSpaceTab cs
  let cs := collapseBlankLines cs
  String.mk (stripCL cs)

/-- `node_to_markdown(node, base_url)`: join the walked pieces and
post-process; the result is the empty string when nothing survives. -/
def node_to_markdown (node : Node) (base_url : String) : String :=
  postMarkdown (joinAll (walk base_url [] node))

/-! ## Timestamp heuristics (`parse_dt_string`, `parse_datetime_candidate`) -/

/-- Decimal digits of a natural number, most significant first; the fuel
bounds the number of divisions and always suffices. -/
def natDigitsAux : Nat → Nat → List Char
  | 0, _ => []
  | fuel + 1, n =>
      if n < 10 then [Char.ofNat (48 + n)]
      else natDigitsAux fuel (n / 10) ++ [Char.ofNat (48 + n % 10)]

/-- Decimal digits of a natural number, most significant first. -/
def natDigits (n : Nat) : List Char := natDigitsAux (n + 1) n

/-- Zero-pad to `k` characters. -/
def padNat (k n : Nat) : List Char :=
  let ds := natDigits n
  List.replicate (k - ds.length) '0' ++ ds

/-- `datetime.isoformat(timespec="seconds")` with zero seconds. -/
def isoTemplate (y mo d h mi : Nat) : String :=
  String.mk (padNat 4 y ++ '-' :: padNat 2 mo ++ '-' :: padNat 2 d ++
    'T' :: padNat 2 h ++ ':' :: padNat 2 mi ++ ':' :: ['0', '0'])

/-- The locale month abbreviations matched (case-insensitively) by `%b`. -/
def monthAbbrevs : List String :=
  ["jan", "feb", "mar", "apr", "may", "jun", "jul", "aug", "sep", "oct", "nov", "dec"]

/-- Month word to its number. -/
def parseMonthWord (w : String) : Option Nat :=
  match monthAbbrevs.indexOf? (lowerStr w) with
  | some i => some (i + 1)
  | none => none

/-- `%Y`: exactly four digits. -/
def parseYear4 (w : String) : Option Nat :=
  if w.data.length = 4 ∧ w.data.all isDigitC then some (digitsToNat w.data) else none

/-- `%d`: one digit `1-9` or two digits `01-31`. -/
def parseDay (w : String) : Option Nat :=
  if ¬ w.data.all isDigitC then none
  else
    let v := digitsToNat w.data
    match w.data.length with
    | 1 => if 1 ≤ v then some v else none
    | 2 => if 1 ≤ v ∧ v ≤ 31 then some v else none
    | _ => none

/-- `%H`: one digit or two digits `00-23`. -/
def parseHour24CL (cs : List Char) : Option Nat :=
  if ¬ cs.all isDigitC then none
  else
    let v := digitsToNat cs
    match cs.length with
    | 1 => some v
    | 2 => if v ≤ 23 then some v else none
    | _ => none

/-- `%I`: one digit `1-9` or two digits `01-12`. -/
def parseHour12CL (cs : List Char) : Option Nat :=
  if ¬ cs.all isDigitC then none
  else
    let v := digitsToNat cs
    match cs.length with
    | 1 => if 1 ≤ v then some v else none
    | 2 => if 1 ≤ v ∧ v ≤ 12 then some v else none
    | _ => none

/-- `%M`: one digit or two digits `00-59`. -/
def parseMinuteCL (cs : List Char) : Option Nat :=
  if ¬ cs.all isDigitC then none
  else
    let v := digitsToNat cs
    match cs.length with
    | 1 => some v
    | 2 => if v ≤ 59 then some v else none
    | _ => none

/-- A `H:M` time word under `%I:%M` or `%H:%M`. -/
def parseTimeWord (is12 : Bool) (w : String) : Option (Nat × Nat) :=
  match splitOnCharCL ':' w.data with
  | [hcs, mcs] =>
      match (if is12 then parseHour12CL hcs else parseHour24CL hcs), parseMinuteCL mcs with
      | some h, some m => some (h, m)
      | _, _ => none
  | _ => none

/-- `%p` (case-insensitive); `true` means PM. -/
def parseAmPm (w : String) : Option Bool :=
  if lowerStr w = "am" then some false
  else if lowerStr w = "pm" then some true
  else none

/-- Twelve-hour to twenty-four-hour conversion used by `datetime`. -/
def hour12to24 (h : Nat) (pm : Bool) : Nat :=
  if pm then (if h = 12 then 12 else h + 12)
  else (if h = 12 then 0 else h)

/-- Gregorian leap year. -/
def isLeapYear (y : Nat) : Bool :=
  y % 4 = 0 && (y % 100 ≠ 0 || y % 400 = 0)

/-- Number of days in a month, validating `datetime` construction. -/
def daysInMonth (y mo : Nat) : Nat :=
  if mo = 2 then (if isLeapYear y then 29 else 28)
  else if mo = 4 ∨ mo = 6 ∨ mo = 9 ∨ mo = 11 then 30
  else 31

/-- Construct `datetime(y, mo, d, h, mi)` and format it; `none` when the
constructor would raise (year zero, day past the month length). -/
def mkIsoDT (y mo d h mi : Nat) : Option String :=
  if 1 ≤ y ∧ d ≤ daysInMonth y mo then some (isoTemplate y mo d h mi) else none

/-- Format `"%Y %b %d %I:%M %p"` on the word list. -/
def fmtYMD12 (words : List String) : Option String :=
  match words with
  | [y, mo, d, t, ap] =>
      match parseYear4 y, parseMonthWord mo, parseDay d,
          parseTimeWord true t, parseAmPm ap with
      | some yv, some mov, some dv, some (h, mi), some pm =>
          mkIsoDT yv mov dv (hour12to24 h pm) mi
      | _, _, _, _, _ => none
  | _ => none

/-- Format `"%Y %b %d %H:%M"`. -/
def fmtYMD24 (words : List String) : Option String :=
  match words with
  | [y, mo, d, t] =>
      match parseYear4 y, parseMonthWord mo, parseDay d, parseTimeWord false t with
      | some yv, some mov, some dv, some (h, mi) => mkIsoDT yv mov dv h mi
      | _, _, _, _ => none
  | _ => none

/-- Format `"%b %d %Y %I:%M %p"`. -/
def fmtMDY12 (words : List String) : Option String :=
  match words with
  | [mo, d, y, t, ap] =>
      match parseMonthWord mo, parseDay d, parseYear4 y,
          parseTimeWord true t, parseAmPm ap with
      | some mov, some dv, some yv, some (h, mi), some pm =>
          mkIsoDT yv mov dv (hour12to24 h pm) mi
      | _, _, _, _, _ => none
  | _ => none

/-- Format `"%b %d %Y %H:%M"`. -/
def fmtMDY24 (words : List String) : Option String :=
  match words with
  | [mo, d, y, t] =>
      match parseMonthWord mo, parseDay d, parseYear4 y, parseTimeWord false t with
      | some mov, some dv, some yv, some (h, mi) => mkIsoDT yv mov dv h mi
      | _, _, _, _ => none
  | _ => none

/-- Format `"%Y %b %d"`, midnight. -/
def fmtYMD (words : List String) : Option String :=
  match words with
  | [y, mo, d] =>
      match parseYear4 y, parseMonthWord mo, parseDay d with
      | some yv, some mov, some dv => mkIsoDT yv mov dv 0 0
      | _, _, _ => none
  | _ => none

/-- `parse_dt_string(s)`: normalize, then try the five `strptime` formats
in order; the word model is exact because normalization leaves single
spaces wherever the formats have `\s+`. -/
def parse_dt_string (s : String) : Option String :=
  if s = "" then none
  else
    let words := splitOnChar ' ' (normalizeWS s)
    fmtYMD12 words <|> fmtYMD24 words <|> fmtMDY12 words <|> fmtMDY24 words <|>
      fmtYMD words

/-- The date regex applied to visible text,
`\b(\d{4}\s+[A-Za-z]{3}\s+\d{1,2}\s+\d{1,2}:\d{2}\s*(AM|PM)?)\b`, tried at
one position; returns the captured group.  `AM`/`PM` match in upper case
only (the inner regex carries no flag); with no meridiem the greedy `\s*`
keeps trailing whitespace only when a word character follows, which the
later `parse_dt_string` normalization strips either way. -/
def dateTextAt (cs : List Char) : Option (List Char) :=
  match cs with
  | y1 :: y2 :: y3 :: y4 :: rest =>
      if ¬ [y1, y2, y3, y4].all isDigitC then none
      else
        let ws1 := rest.takeWhile isPySpace
        let r1 := rest.dropWhile isPySpace
        if ws1 = [] then none
        else match r1 with
          | a1 :: a2 :: a3 :: rest2 =>
              if ¬ [a1, a2, a3].all isAlphaC then none
              else
                let ws2 := rest2.takeWhile isPySpace
                let r2 := rest2.dropWhile isPySpace
                if ws2 = [] then none
                else
                  let dayds := r2.takeWhile isDigitC
                  let r3 := r2.dropWhile isDigitC
                  if dayds.length = 0 ∨ dayds.length > 2 then none
                  else
                    let ws3 := r3.takeWhile isPySpace
                    let r4 := r3.dropWhile isPySpace
                    if ws3 = [] then none
                    else
                      let hrds := r4.takeWhile isDigitC
                      let r5 := r4.dropWhile isDigitC
                      if hrds.length = 0 ∨ hrds.length > 2 then none
                      else match r5 with
                        | ':' :: m1 :: m2 :: r6 =>
                            if ¬ [m1, m2].all isDigitC then none
                            else
                              let core := [y1, y2, y3, y4] ++ ws1 ++ [a1, a2, a3] ++
                                ws2 ++ dayds ++ ws3 ++ hrds ++ ':' :: [m1, m2]
                              let wsr := r6.takeWhile isPySpace
                              let r7 := r6.dropWhile isPySpace
                              let ampm : Option (List Char) :=
                                match r7 with
                                | 'A' :: 'M' :: r8 =>
                                    if boundaryAfter r8 then some ['A', 'M'] else none
                                | 'P' :: 'M' :: r8 =>
                                    if boundaryAfter r8 then some ['P', 'M'] else none
                                | _ => none
                              match ampm with
                              | some ap => some (core ++ wsr ++ ap)
                              | none =>
                                  if wsr ≠ [] then
                                    match r7 with
                                    | w :: _ =>
                                        if isWordC w then some (core ++ wsr) else some core
                                    | [] => some core
                                  else if boundaryAfter r6 then some core
                                  else none
                        | _ => none
          | _ => none
  | _ => none

/-- Scan the text for the date regex (leftmost match, word boundary
before the year). -/
def dateTextSearchAux (prevWord : Bool) : List Char → Option (List Char)
  | [] => none
  | c :: rest =>
      match (if prevWord then none else dateTextAt (c :: rest)) with
      | some m => some m
      | none => dateTextSearchAux (isWordC c) rest

/-- `re.search` for the visible-text date pattern. -/
def dateTextSearch (s : String) : Option String :=
  (dateTextSearchAux false s.data).map String.mk

/-- `tag.get(key)` when present and non-empty (Python truthiness of the
attribute value). -/
def truthyAttr (n : Node) (key : String) : Option String :=
  match n.attr key with
  | some v => if v = "" then none else some v
  | none => none

/-- A class token membership test (exact CSS class match). -/
def classHasToken (n : Node) (tok : String) : Bool := n.classes.contains tok

/-- Does the ancestor chain contain an inner match with an outer match
somewhere above it (for two-level CSS descendant selectors). -/
def hasAncThen (pInner pOuter : Node → Bool) : List Node → Bool
  | [] => false
  | a :: rest => (pInner a && rest.any pOuter) || hasAncThen pInner pOuter rest

/-- `.lia-message-post-date .DateTime .local-friendly-date[title]`
applied to a node and its ancestor chain. -/
def friendlyDateSel (ancs : List Node) (n : Node) : Bool :=
  classHasToken n "local-friendly-date" && n.hasAttr "title" &&
  hasAncThen (fun a => classHasToken a "DateTime")
    (fun a => classHasToken a "lia-message-post-date") ancs

/-- `.lia-message-post-date .DateTime` applied likewise. -/
def dateTimeWrapSel (ancs : List Node) (n : Node) : Bool :=
  classHasToken n "DateTime" && ancs.any (fun a => classHasToken a "lia-message-post-date")

/-- The attribute-bearing candidates of the fourth timestamp source:
`[itemprop*="date"], [property*="date"], [data-lia-message-time],
[data-lia-message-timestamp]`. -/
def dateAttrCandidateSel (n : Node) : Bool :=
  (n.attr "itemprop").any (fun v => hasSub "date" v) ||
  (n.attr "property").any (fun v => hasSub "date" v) ||
  n.hasAttr "data-lia-message-time" ||
  n.hasAttr "data-lia-message-timestamp"

/-- BeautifulSoup stores these HTML attributes as lists, so the
brute-force scans, which keep only string values, skip them. -/
def multiValuedAttr (tag attrKey : String) : Bool :=
  attrKey = "class" || attrKey = "accesskey" || attrKey = "dropzone" ||
  ((attrKey = "rel" || attrKey = "rev") && (tag = "a" || tag = "area" || tag = "link")) ||
  (attrKey = "headers" && (tag = "td" || tag = "th")) ||
  (attrKey = "accept-charset" && tag = "form") ||
  (attrKey = "archive" && (tag = "object" || tag = "applet"))

/-- The attribute pairs of an element. -/
def attrsOf : Node → List (String × String)
  | .text _ => []
  | .elem _ a _ => a

/-- First `some` produced by a function over a list (the first `return`
of a Python search loop). -/
def firstSome {α β : Type} (f : α → Option β) : List α → Option β
  | [] => none
  | x :: xs =>
      match f x with
      | some v => some v
      | none => firstSome f xs

/-- Timestamp source 1: a `time` element with a machine-readable
attribute; ISO pattern first, then the `strptime` formats (the formats
also receive the value the ISO search rejected, and an empty normalized
value falls through them to the absent result, as in the source). -/
def pdcTime (container : Node) : Option String :=
  match findFirst (fun n => n.nameLower = "time") container with
  | none => none
  | some t =>
      match (truthyAttr t "datetime" <|> truthyAttr t "title") with
      | none => none
      | some v =>
          match isoSearch (normalizeWS v) with
          | some m => some m
          | none => parse_dt_string (normalizeWS v)

/-- Timestamp source 2: the friendly-date title. -/
def pdcFriendly (container : Node) : Option String :=
  match (findAllAnc friendlyDateSel container).head? with
  | none => none
  | some f => parse_dt_string ((f.attr "title").getD "")

/-- Timestamp source 3: a composed local date and local time pair. -/
def pdcLocalPair (container : Node) : Option String :=
  match (findAllAnc dateTimeWrapSel container).head? with
  | none => none
  | some w =>
      match findFirst (fun n =>
          n.nameLower = "span" && hasBoundedSub "local-date".data n.classStr.data) w,
        findFirst (fun n =>
          n.nameLower = "span" && hasBoundedSub "local-time".data n.classStr.data) w with
      | some l, some t =>
          parse_dt_string
            (normalizeWS (getText "" false l) ++ " " ++ normalizeWS (getText "" false t))
      | _, _ => none

/-- Timestamp source 4: date-ish attributes scanned per candidate element
and per attribute name, ISO pattern first. -/
def pdcCandidates (container : Node) : Option String :=
  firstSome (fun tag =>
    firstSome (fun attrName =>
      match tag.attr attrName with
      | none => none
      | some v =>
          if normalizeWS v = "" then none
          else
            match isoSearch (normalizeWS v) with
            | some m => some m
            | none => parse_dt_string (normalizeWS v))
      ["datetime", "content", "data-lia-message-time", "data-lia-message-timestamp", "title"])
    (findAll dateAttrCandidateSel container)

/-- Timestamp source 5: every string attribute of every descendant,
scanned for the ISO pattern. -/
def pdcBrute (container : Node) : Option String :=
  firstSome (fun el =>
    firstSome (fun p =>
      if multiValuedAttr el.nameLower p.1 then none
      else isoSearch (normalizeWS p.2))
      (attrsOf el))
    (subelems container)

/-- Timestamp source 6: the visible text, ISO pattern first and then the
year-month-day-time pattern fed to `parse_dt_string`. -/
def pdcText (container : Node) : Option String :=
  match isoSearch (normalizeWS (getText " " false container)) with
  | some m => some m
  | none =>
      match dateTextSearch (normalizeWS (getText " " false container)) with
      | some g => parse_dt_string g
      | none => none

/-- `parse_datetime_candidate(container)`: the six sources in order. -/
def parse_datetime_candidate (container : Node) : Option String :=
  pdcTime container <|> pdcFriendly container <|> pdcLocalPair container <|>
  pdcCandidates container <|> pdcBrute container <|> pdcText container

/-! ## Upvote, author, identifier and role heuristics -/

/-- Case-insensitive `kudo|like|vote` search in an ARIA label. -/
def kudoLabelSearch (label : String) : Bool :=
  let l := lowerStr label
  hasSub "kudo" l || hasSub "like" l || hasSub "vote" l

/-- The `kudo|likes?|vote|rating|count` class regex (`likes?` matches
wherever `like` occurs). -/
def kudoClassSearch (n : Node) : Bool :=
  let l := lowerStr n.classStr
  hasSub "kudo" l || hasSub "like" l || hasSub "vote" l ||
  hasSub "rating" l || hasSub "count" l

/-- `extract_upvotes(container)`: ARIA labels, kudo-like classes with
text or data attributes, then a kudos id or class attribute. -/
def extract_upvotes (container : Node) : Option Nat :=
  let step1 := firstSome (fun el =>
    match el.attr "aria-label" with
    | some label => if kudoLabelSearch label then firstNumber label else none
    | none => none)
    (findAll (fun el => el.hasAttr "aria-label") container)
  let step2 := firstSome (fun el =>
    match firstNumber (pyStrip (getText " " false el)) with
    | some v => some v
    | none =>
        firstSome (fun p =>
          if ¬ multiValuedAttr el.nameLower p.1 ∧ pyStartsWith "data-" p.1 then
            firstNumber p.2
          else none)
          (attrsOf el))
    (findAll kudoClassSearch container)
  let step3 :=
    match (findAll (fun el =>
        (el.attr "id").any (fun v => hasSub "kudos" v) ||
        (el.attr "class").any (fun v => hasSub "kudos" v)) container).head? with
    | some el => firstNumber (getText " " false el)
    | none => none
  step1 <|> step2 <|> step3

/-- The author-name class regex `(lia-user-name|lia-component-author-name)`. -/
def authorClassSearch (n : Node) : Bool :=
  hasSub "lia-user-name" n.classStr || hasSub "lia-component-author-name" n.classStr

/-- The author extraction of `build_answer_from_div`. -/
def findAuthor (div : Node) : Option String :=
  match findFirst (fun n =>
      (n.nameLower = "a" ∨ n.nameLower = "span") ∧ authorClassSearch n) div with
  | some t => some (normalizeWS (getText "" false t))
  | none => none

/-- `get_anchor_mid(div)`: an inner element whose id fully matches
`M\d+`, else an anchor whose target carries `#M\d+`. -/
def get_anchor_mid (div : Node) : Option String :=
  let viaId :=
    match findFirst (fun el => (el.attr "id").any idFullM) div with
    | some el => matchMDigits ((el.attr "id").getD "")
    | none => none
  match viaId with
  | some m => some m
  | none =>
      match findFirst (fun el =>
          el.nameLower = "a" && (el.attr "href").any (fun h => (searchHashM h).isSome)) div with
      | some a => searchHashM ((a.attr "href").getD "")
      | none => none

/-- `get_msg_id(div)`: anchor targets, then the message-UID data
attribute (returned verbatim, possibly empty), then the numeric suffix of
the container id. -/
def get_msg_id (div : Node) : Option String :=
  match get_anchor_mid div with
  | some m => some m
  | none =>
      if div.hasAttr "data-lia-message-uid" then
        some ((div.attr "data-lia-message-uid").getD "")
      else
        match div.attr "id" with
        | some idv => searchMessageNum idv
        | none => none

/-- Python truthiness of an optional identifier (`if not mid`). -/
def pyTruthyId (o : Option String) : Bool :=
  match o with
  | some s => s ≠ ""
  | none => false

/-- `is_question_div(div)`. -/
def is_question_div (div : Node) : Bool :=
  questionClassSearch (lowerStr div.classStr)

/-- `container_has_accepted_marker_for_message(div)`: own classes, else a
`MessageView` wrapper by classes or visible hint text. -/
def container_has_accepted_marker_for_message (div : Node) : Bool :=
  if acceptedClassSearch div.classStr then true
  else
    match findFirst (fun n =>
        n.nameLower = "div" && hasBoundedSub "MessageView".data n.classStr.data) div with
    | some mv =>
        acceptedClassSearch mv.classStr || (textsUnder mv).any acceptedHintSearch
    | none => false

/-- The message-body class regex
`(lia-message-body|lia-message-body-content|lia-article-body)` on a `div`. -/
def bodyDivRe (n : Node) : Bool :=
  n.nameLower = "div" &&
  (hasSub "lia-message-body" n.classStr || hasSub "lia-message-body-content" n.classStr ||
   hasSub "lia-article-body" n.classStr)

/-- Is the tag one of the removed `script`/`style`/`noscript`. -/
def isBadTag (n : Node) : Bool :=
  n.nameLower = "script" || n.nameLower = "style" || n.nameLower = "noscript"

mutual

/-- `decompose` of every `script`/`style`/`noscript` under a node. -/
def cleanBad : Node → Node
  | .text s => .text s
  | .elem nm a cs => .elem nm a (cleanBadL cs)

/-- The same removal over a forest. -/
def cleanBadL : List Node → List Node
  | [] => []
  | c :: cs => if isBadTag c then cleanBadL cs else cleanBad c :: cleanBadL cs

end

/-- `extract_body_markdown(container, page_url)`: the first message-body
div, scrubbed of script-like tags and rendered; empty renderings become
an absent value. -/
def extract_body_markdown (container : Node) (page_url : String) : Option String :=
  match findFirst bodyDivRe container with
  | none => none
  | some bd =>
      if node_to_markdown (cleanBad bd) page_url = "" then none
      else some (node_to_markdown (cleanBad bd) page_url)

mutual

/-- Replay the side effect of `extract_body_markdown` on the container:
the first matching body div (in pre-order) has its script-like descendants
removed in place.  The flag reports whether the replacement happened. -/
def replaceBody : Node → Node × Bool
  | .text s => (.text s, false)
  | .elem nm a cs =>
      let r := replaceBodyL cs
      (.elem nm a r.1, r.2)

/-- The replacement over a forest, pre-order. -/
def replaceBodyL : List Node → List Node × Bool
  | [] => ([], false)
  | c :: cs =>
      if bodyDivRe c then (cleanBad c :: cs, true)
      else
        let rc := replaceBody c
        if rc.2 then (rc.1 :: cs, true)
        else
          let rcs := replaceBodyL cs
          (c :: rcs.1, rcs.2)

end

/-- The container as later loops observe it, after `build_answer_from_div`
has run on it. -/
def mutateDiv (div : Node) : Node := (replaceBody div).1

/-! ## Answers and the flat Q&A extraction -/

structure Answer where
  message_id : Option String := none
  message_url : Option String := none
  author : Option String := none
  created_at : Option String := none
  text : Option String := none
  is_accepted : Bool := false
  upvotes : Option Nat := none
deriving DecidableEq, Repr

instance : Inhabited Answer := ⟨{}⟩

/-- `build_answer_from_div(div, page_url)`: the body extraction mutates
the container before the timestamp, upvote and acceptance probes run. -/
def build_answer_from_div (div : Node) (page_url : String) : Answer :=
  let msg_id := get_msg_id div
  let msg_url :=
    match msg_id with
    | some m => if m = "" then none else some (page_url ++ "#M" ++ m)
    | none => none
  let author := findAuthor div
  let text := extract_body_markdown div page_url
  let divm := mutateDiv div
  { message_id := msg_id, message_url := msg_url, author := author,
    created_at := parse_datetime_candidate divm,
    text := text,
    is_accepted := container_has_accepted_marker_for_message divm,
    upvotes := extract_upvotes divm }

/-- `div[id^="message-"], div[data-lia-message-uid]`. -/
def isMsgContainer (n : Node) : Bool :=
  n.nameLower = "div" &&
  ((n.attr "id").any (fun v => pyStartsWith "message-" v) || n.hasAttr "data-lia-message-uid")

/-- All candidate message containers under a node, in document order. -/
def selectMsgContainers (root : Node) : List Node := findAll isMsgContainer root

/-- The accepted-solution wrapper selector of `extract_flat_qna`. -/
def isAcceptedWrapper (n : Node) : Bool :=
  n.nameLower = "div" &&
  ((classHasToken n "ComponentToggler" && classHasToken n "lia-component-solutions-with-toggle") ||
   classHasToken n "lia-accepted-solution" || classHasToken n "lia-message-accepted-solution" ||
   classHasToken n "lia-solution-accepted" || classHasToken n "lia-list-row-thread-solved")

/-- The container discovery of `extract_flat_qna`: the page-wide candidate
list, extended by containers nested in accepted-solution wrappers unless
an equal container is already present (`in` uses the structural tag
equality). -/
def containersOf (soup : Node) : List Node :=
  let base := selectMsgContainers soup
  (findAll isAcceptedWrapper soup).foldl
    (fun acc wrap =>
      (selectMsgContainers wrap).foldl
        (fun acc2 m => if acc2.contains m then acc2 else acc2 ++ [m]) acc)
    base

/-- `not base.text` for optional strings (absent or empty). -/
def falsyStr (o : Option String) : Bool :=
  match o with
  | none => true
  | some s => s = ""

/-- The merge applied when a container resolves to an already-seen
identifier: accepted flags are OR-ed, text, timestamp and upvotes are
filled only when still empty. -/
def mergeAnswers (base ans : Answer) : Answer :=
  { base with
    is_accepted := base.is_accepted || ans.is_accepted,
    text := if falsyStr base.text ∧ ¬ falsyStr ans.text then ans.text else base.text,
    created_at :=
      if falsyStr base.created_at ∧ ¬ falsyStr ans.created_at then ans.created_at
      else base.created_at,
    upvotes := if base.upvotes = none ∧ ans.upvotes ≠ none then ans.upvotes
      else base.upvotes }

/-- Lookup in the identifier-keyed answer map. -/
def lookupA (m : List (String × Answer)) (k : String) : Option Answer :=
  (m.find? (fun p => p.1 = k)).map Prod.snd

/-- In-place update of the stored answer for a key. -/
def updateA (m : List (String × Answer)) (k : String) (v : Answer) :
    List (String × Answer) :=
  m.map (fun p => if p.1 = k then (k, v) else p)

/-- `answers_by_id.pop(k)`. -/
def removeA (m : List (String × Answer)) (k : String) : List (String × Answer) :=
  m.filter (fun p => ¬ (p.1 = k))

/-- One iteration of the deduplication loop of `extract_flat_qna`:
unidentifiable containers are skipped, duplicates merge into the stored
answer, new identifiers append to the map and the order list. -/
def dedupStep (page_url : String) (st : List (String × Answer) × List String)
    (div : Node) : List (String × Answer) × List String :=
  let mid := get_msg_id div
  if ¬ pyTruthyId mid then st
  else
    let midv := mid.getD ""
    let ans := build_answer_from_div div page_url
    match lookupA st.1 midv with
    | some base => (updateA st.1 midv (mergeAnswers base ans), st.2)
    | none => (st.1 ++ [(midv, ans)], st.2 ++ [midv])

/-- The deduplication loop over the container list. -/
def dedupContainers (page_url : String) (containers : List Node) :
    List (String × Answer) × List String :=
  containers.foldl (dedupStep page_url) ([], [])

/-- The containers as the question loop sees them: each container that
was identified (and so went through `build_answer_from_div`) carries the
body-div mutation. -/
def containersMut (containers : List Node) : List Node :=
  containers.map (fun d => if pyTruthyId (get_msg_id d) then mutateDiv d else d)

/-- The explicit question search: the first container whose class carries
a question marker, stopped there whether or not it has an identifier. -/
def rawQuestionId (containers2 : List Node) : Option String :=
  match containers2.find? is_question_div with
  | some d => get_msg_id d
  | none => none

/-- The chosen question identifier: the marked container result, or the
first deduplicated identifier when the search produced `None`. -/
def chooseQuestionId (containers2 : List Node) (order : List String) : Option String :=
  match rawQuestionId containers2 with
  | some q => some q
  | none => order.head?

/-- `extract_flat_qna(soup, page_url)`: returns question text, question
upvotes, the answer list and the reply count.  The structured-data
acceptance pass mutates the stored answer objects, which the already-built
answer list shares, so it is applied while the list is read off. -/
def extract_flat_qna (soup : Node) (page_url : String) :
    Option String × Option Nat × List Answer × Nat :=
  let containers := containersOf soup
  if containers.isEmpty then (none, none, [], 0)
  else
    let st := dedupContainers page_url containers
    let byId := st.1
    let order := st.2
    let qid := chooseQuestionId (containersMut containers) order
    let popped :
        Option String × Option Nat × List (String × Answer) × List String :=
      match qid with
      | some q =>
          if q ≠ "" then
            match lookupA byId q with
            | some qa => (qa.text, qa.upvotes, removeA byId q, order.erase q)
            | none => (none, none, byId, order)
          else (none, none, byId, order)
      | none => (none, none, byId, order)
    let jsonIds := extract_json_ld_accepted_ids soup
    let answers := popped.2.2.2.map (fun midv =>
      let a := (lookupA popped.2.2.1 midv).getD default
      if jsonIds.contains midv then { a with is_accepted := true } else a)
    (popped.1, popped.2.1, answers, answers.length)

/-! ## Page-level metadata and the page parsers -/

structure CommonFields where
  title : Option String := none
  author : Option String := none
  published_at : Option String := none
  updated_at : Option String := none
  tags : List String := []
deriving DecidableEq, Repr

/-- First `meta` tag with an exact `property` value. -/
def findMetaProp (soup : Node) (prop : String) : Option Node :=
  findFirst (fun n => n.nameLower = "meta" && n.attr "property" = some prop) soup

/-- First `meta` tag with an exact `name` value. -/
def findMetaName (soup : Node) (nm : String) : Option Node :=
  findFirst (fun n => n.nameLower = "meta" && n.attr "name" = some nm) soup

/-- `a[rel~="tag"], a[href*="/t5/tag/"], a[class*="Tag"]`. -/
def classicTagSel (n : Node) : Bool :=
  n.nameLower = "a" &&
  (((n.attr "rel").any (fun v => (splitWs v).contains "tag")) ||
   ((n.attr "href").any (fun v => hasSub "/t5/tag/" v)) ||
   ((n.attr "class").any (fun v => hasSub "Tag" v)))

/-- `div.custom-view-associated-products li.lia-link-navigation a`. -/
def productTagSel (ancs : List Node) (n : Node) : Bool :=
  n.nameLower = "a" &&
  hasAncThen
    (fun a => a.nameLower = "li" && classHasToken a "lia-link-navigation")
    (fun a => a.nameLower = "div" && classHasToken a "custom-view-associated-products")
    ancs

/-- The normalized tag candidates of `extract_common_fields`, in the order
the two selector loops push them. -/
def tagCandidates (soup : Node) : List (Option String) :=
  (findAll classicTagSel soup).map (fun t => some (normalizeWS (getText "" false t))) ++
  (findAllAnc productTagSel soup).map (fun t => some (normalizeWS (getText "" false t)))

/-- `extract_common_fields(soup)`. -/
def extract_common_fields (soup : Node) : CommonFields :=
  let titleFromTag :=
    match findFirst (fun n => n.nameLower = "title") soup with
    | some tt =>
        match Node.string tt with
        | some s => if s = "" then none else some (normalizeWS s)
        | none => none
    | none => none
  let title :=
    match findMetaProp soup "og:title" with
    | some m =>
        match truthyAttr m "content" with
        | some c => some (normalizeWS c)
        | none => titleFromTag
    | none => titleFromTag
  let author :=
    match findMetaName soup "author" with
    | some m =>
        match truthyAttr m "content" with
        | some c => some (normalizeWS c)
        | none => metaAuthorAlt soup
    | none => metaAuthorAlt soup
  let published := firstSome (fun prop =>
      match findMetaProp soup prop with
      | some m => (truthyAttr m "content").map normalizeWS
      | none => none)
    ["article:published_time", "og:article:published_time"]
  let updated := firstSome (fun prop =>
      match findMetaProp soup prop with
      | some m => (truthyAttr m "content").map normalizeWS
      | none => none)
    ["article:modified_time", "og:updated_time"]
  { title := title, author := author, published_at := published,
    updated_at := updated,
    tags := (tagCandidates soup).foldl uniq_push [] }
where
  /-- The second selector of the author loop. -/
  metaAuthorAlt (soup : Node) : Option String :=
    match findMetaProp soup "article:author" with
    | some m => (truthyAttr m "content").map normalizeWS
    | none => none

/-- `extract_board_from_url(url)`. -/
def extract_board_from_url (url : String) : Option String :=
  let path := String.mk (stripCharCL '/' (urlPath url).data)
  match splitOnChar '/' path with
  | _ :: second :: _ =>
      if pyStartsWith "human-capital-management-q-a" second then some "hcm-questions"
      else none
  | _ => none

/-- `detect_content_type(url)`. -/
def detect_content_type (url : String) : String :=
  let p := lowerStr (urlPath url)
  if hasSub "/qaq-p/" p || hasSub "/qa-p/" p then "qna"
  else if hasSub "/blogs/" p || hasSub "/blog/" p then "blog"
  else "other"

structure ContentItem where
  url : String
  lastmod_from_sitemap : Option String := none
  content_type : String
  title : Option String := none
  author : Option String := none
  published_at : Option String := none
  updated_at : Option String := none
  board : Option String := none
  tags : List String := []
  question_text : Option String := none
  question_upvotes : Option Nat := none
  answers : List Answer := []
  reply_count : Option Nat := none
deriving DecidableEq, Repr

/-- `parse_qna_page(url, html)`, taking the parsed DOM in place of the
raw bytes. -/
def parse_qna_page (url : String) (soup : Node) : ContentItem :=
  let common := extract_common_fields soup
  let r := extract_flat_qna soup url
  { url := url, lastmod_from_sitemap := none, content_type := "qna",
    title := common.title, author := common.author,
    published_at := common.published_at, updated_at := common.updated_at,
    board := extract_board_from_url url, tags := common.tags,
    question_text := r.1, question_upvotes := r.2.1,
    answers := r.2.2.1, reply_count := some r.2.2.2 }

/-- The blog comment selector
`div[class*="comment"] div[id^="message-"], div[id^="message-"].lia-message-comment`. -/
def blogCommentSel (ancs : List Node) (n : Node) : Bool :=
  isMsgContainerById n &&
  (classHasToken n "lia-message-comment" ||
   ancs.any (fun a => a.nameLower = "div" && (a.attr "class").any (fun v => hasSub "comment" v)))
where
  /-- `div[id^="message-"]` alone. -/
  isMsgContainerById (n : Node) : Bool :=
    n.nameLower = "div" && (n.attr "id").any (fun v => pyStartsWith "message-" v)

/-- One iteration of the blog comment loop: identified repeats are
skipped, but a container without an identifier always contributes an
answer. -/
def blogStep (url : String) (st : List Answer × List String) (div : Node) :
    List Answer × List String :=
  let mid := get_msg_id div
  if pyTruthyId mid ∧ st.2.contains (mid.getD "") then st
  else
    let seen2 := if pyTruthyId mid then st.2 ++ [mid.getD ""] else st.2
    let ans := build_answer_from_div div url
    (st.1 ++ [{ ans with is_accepted := false }], seen2)

/-- `parse_blog_page(url, html)`, on the parsed DOM. -/
def parse_blog_page (url : String) (soup : Node) : ContentItem :=
  let common := extract_common_fields soup
  let article :=
    match findFirst bodyDivRe soup with
    | some d => some d
    | none => findFirst (fun n => n.nameLower = "article") soup
  let question_text := article.map (fun a => node_to_markdown a url)
  let answers := ((findAllAnc blogCommentSel soup).foldl (blogStep url) ([], [])).1
  { url := url, lastmod_from_sitemap := none, content_type := "blog",
    title := common.title, author := common.author,
    published_at := common.published_at, updated_at := common.updated_at,
    tags := common.tags,
    question_text := question_text, question_upvotes := none,
    answers := answers, reply_count := some answers.length }

/-- `parse_generic_page(url, html)`, on the parsed DOM. -/
def parse_generic_page (url : String) (soup : Node) : ContentItem :=
  let common := extract_common_fields soup
  { url := url, lastmod_from_sitemap := none, content_type := "other",
    title := common.title, author := common.author,
    published_at := common.published_at, updated_at := common.updated_at,
    tags := common.tags,
    question_text := none, question_upvotes := none,
    answers := [], reply_count := some 0 }

/-! ## Basic lemmas: resolved timestamps and rendered bodies are never
the empty string -/

theorem natDigits_ne_nil (n : Nat) : natDigits n ≠ [] := by
  unfold natDigits natDigitsAux
  split
  · simp
  · simp

theorem padNat_ne_nil (k n : Nat) : padNat k n ≠ [] := by
  unfold padNat
  intro h
  rcases List.append_eq_nil.mp h with ⟨_, h2⟩
  exact natDigits_ne_nil n h2

theorem stringMk_ne_empty {l : List Char} (h : l ≠ []) : String.mk l ≠ "" := by
  intro he
  apply h
  have : ("".data : List Char) = [] := rfl
  rw [← he] at this
  exact this

theorem isoTemplate_ne_empty (y mo d h mi : Nat) : isoTemplate y mo d h mi ≠ "" := by
  unfold isoTemplate
  apply stringMk_ne_empty
  simp

theorem mkIsoDT_ne {y mo d h mi : Nat} {t : String}
    (hm : mkIsoDT y mo d h mi = some t) : t ≠ "" := by
  unfold mkIsoDT at hm
  split at hm
  · cases hm; exact isoTemplate_ne_empty _ _ _ _ _
  · cases hm

theorem fmtYMD12_ne {ws : List String} {t : String} (h : fmtYMD12 ws = some t) :
    t ≠ "" := by
  unfold fmtYMD12 at h
  repeat' split at h
  all_goals first | (exact mkIsoDT_ne h) | cases h

theorem fmtYMD24_ne {ws : List String} {t : String} (h : fmtYMD24 ws = some t) :
    t ≠ "" := by
  unfold fmtYMD24 at h
  repeat' split at h
  all_goals first | (exact mkIsoDT_ne h) | cases h

theorem fmtMDY12_ne {ws : List String} {t : String} (h : fmtMDY12 ws = some t) :
    t ≠ "" := by
  unfold fmtMDY12 at h
  repeat' split at h
  all_goals first | (exact mkIsoDT_ne h) | cases h

theorem fmtMDY24_ne {ws : List String} {t : String} (h : fmtMDY24 ws = some t) :
    t ≠ "" := by
  unfold fmtMDY24 at h
  repeat' split at h
  all_goals first | (exact mkIsoDT_ne h) | cases h

theorem fmtYMD_ne {ws : List String} {t : String} (h : fmtYMD ws = some t) :
    t ≠ "" := by
  unfold fmtYMD at h
  repeat' split at h
  all_goals first | (exact mkIsoDT_ne h) | cases h

theorem orElse_prop {α : Type} {P : α → Prop} {a b : Option α}
    (ha : ∀ x, a = some x → P x) (hb : ∀ x, b = some x → P x) :
    ∀ x, (a <|> b) = some x → P x := by
  intro x hx
  cases a with
  | none => exact hb x (by simpa using hx)
  | some v =>
      have : v = x := by simpa using hx
      exact this ▸ ha v rfl

theorem parse_dt_string_ne {s t : String} (h : parse_dt_string s = some t) :
    t ≠ "" := by
  unfold parse_dt_string at h
  split at h
  · cases h
  · exact orElse_prop (fun x hx => fmtYMD12_ne hx)
      (orElse_prop (fun x hx => fmtYMD24_ne hx)
        (orElse_prop (fun x hx => fmtMDY12_ne hx)
          (orElse_prop (fun x hx => fmtMDY24_ne hx)
            (fun x hx => fmtYMD_ne hx)))) t h

theorem isoTryAt_ne {cs m : List Char} (h : isoTryAt cs = some m) : m ≠ [] := by
  unfold isoTryAt at h
  repeat' split at h
  all_goals (try cases h)
  all_goals simp

theorem isoSearchCL_ne {cs m : List Char} (h : isoSearchCL cs = some m) : m ≠ [] := by
  induction cs with
  | nil => cases h
  | cons c rest ih =>
      rw [isoSearchCL] at h
      revert h
      cases ht : isoTryAt (c :: rest) with
      | some v => intro h; cases h; exact isoTryAt_ne ht
      | none => intro h; exact ih h

theorem isoSearch_ne {s t : String} (h : isoSearch s = some t) : t ≠ "" := by
  unfold isoSearch at h
  revert h
  cases hc : isoSearchCL s.data with
  | none => intro h; cases h
  | some m => intro h; cases h; exact stringMk_ne_empty (isoSearchCL_ne hc)

theorem firstSome_prop {α β : Type} {P : β → Prop} {f : α → Option β} {l : List α}
    (hf : ∀ x ∈ l, ∀ v, f x = some v → P v) :
    ∀ v, firstSome f l = some v → P v := by
  induction l with
  | nil => intro v h; cases h
  | cons x xs ih =>
      intro v h
      rw [firstSome] at h
      revert h
      cases hx : f x with
      | some w => intro h; cases h; exact hf x (by simp) v hx
      | none =>
          intro h
          exact ih (fun y hy => hf y (by simp [hy])) v h

theorem pdcTime_ne {c : Node} {t : String} (h : pdcTime c = some t) : t ≠ "" := by
  unfold pdcTime at h
  repeat' split at h
  all_goals first
    | exact parse_dt_string_ne h
    | (cases h; all_goals exact isoSearch_ne (by assumption))

theorem pdcFriendly_ne {c : Node} {t : String} (h : pdcFriendly c = some t) :
    t ≠ "" := by
  unfold pdcFriendly at h
  repeat' split at h
  all_goals first | cases h | exact parse_dt_string_ne h

theorem pdcLocalPair_ne {c : Node} {t : String} (h : pdcLocalPair c = some t) :
    t ≠ "" := by
  unfold pdcLocalPair at h
  repeat' split at h
  all_goals first | cases h | exact parse_dt_string_ne h

theorem pdcCandidates_ne {c : Node} {t : String} (h : pdcCandidates c = some t) :
    t ≠ "" := by
  unfold pdcCandidates at h
  refine @firstSome_prop _ _ (fun x => x ≠ "") _ _ (fun tag _ v hv => ?_) t h
  refine @firstSome_prop _ _ (fun x => x ≠ "") _ _ (fun an _ w hw => ?_) v hv
  repeat' split at hw
  all_goals first
    | exact parse_dt_string_ne hw
    | (cases hw; all_goals exact isoSearch_ne (by assumption))

theorem pdcBrute_ne {c : Node} {t : String} (h : pdcBrute c = some t) : t ≠ "" := by
  unfold pdcBrute at h
  refine @firstSome_prop _ _ (fun x => x ≠ "") _ _ (fun el _ v hv => ?_) t h
  refine @firstSome_prop _ _ (fun x => x ≠ "") _ _ (fun p _ w hw => ?_) v hv
  revert hw
  split
  · intro hw; cases hw
  · intro hw; exact isoSearch_ne hw

theorem pdcText_ne {c : Node} {t : String} (h : pdcText c = some t) : t ≠ "" := by
  unfold pdcText at h
  repeat' split at h
  all_goals first
    | exact parse_dt_string_ne h
    | (cases h; all_goals exact isoSearch_ne (by assumption))

theorem parse_datetime_candidate_ne {c : Node} {t : String}
    (h : parse_datetime_candidate c = some t) : t ≠ "" := by
  unfold parse_datetime_candidate at h
  exact orElse_prop (fun x hx => pdcTime_ne hx)
    (orElse_prop (fun x hx => pdcFriendly_ne hx)
      (orElse_prop (fun x hx => pdcLocalPair_ne hx)
        (orElse_prop (fun x hx => pdcCandidates_ne hx)
          (orElse_prop (fun x hx => pdcBrute_ne hx)
            (fun x hx => pdcText_ne hx))))) t h

theorem extract_body_markdown_ne {c : Node} {u : String}
    (h : extract_body_markdown c u = some "") : False := by
  unfold extract_body_markdown at h
  split at h
  · cases h
  · split at h
    · cases h
    · rename_i hne
      injection h with h2
      exact hne h2

theorem build_answer_text_ne (d : Node) (u : String) :
    (build_answer_from_div d u).text ≠ some "" := by
  unfold build_answer_from_div
  simp only
  intro h
  exact extract_body_markdown_ne h

theorem build_answer_created_ne (d : Node) (u : String) :
    (build_answer_from_div d u).created_at ≠ some "" := by
  unfold build_answer_from_div
  simp only
  intro h
  exact parse_datetime_candidate_ne h rfl

/-! ## Characterizing the deduplication loop -/

/-- The sequence of truthy identifiers resolved along the container list. -/
def idsSeq (cs : List Node) : List String :=
  (cs.filterMap get_msg_id).filter (fun s => s ≠ "")

/-- First-appearance deduplication of a list. -/
def dedupFirst (l : List String) : List String :=
  l.foldl (fun acc x => if x ∈ acc then acc else acc ++ [x]) []

theorem dedupFoldl_mem (l : List String) (acc : List String) (x : String) :
    x ∈ l.foldl (fun acc y => if y ∈ acc then acc else acc ++ [y]) acc ↔
      x ∈ acc ∨ x ∈ l := by
  induction l generalizing acc with
  | nil => simp
  | cons y ys ih =>
      rw [List.foldl_cons, ih]
      by_cases hy : y ∈ acc
      · simp [hy]
        constructor
        · rintro (h | h)
          · exact Or.inl h
          · exact Or.inr (Or.inr h)
        · rintro (h | h | h)
          · exact Or.inl h
          · exact Or.inl (h ▸ hy)
          · exact Or.inr h
      · simp [hy, List.mem_append]
        constructor
        · rintro ((h | h) | h)
          · exact Or.inl h
          · exact Or.inr (Or.inl h)
          · exact Or.inr (Or.inr h)
        · rintro (h | h | h)
          · exact Or.inl (Or.inl h)
          · exact Or.inl (Or.inr h)
          · exact Or.inr h

theorem dedupFoldl_nodup (l : List String) (acc : List String) (h : acc.Nodup) :
    (l.foldl (fun acc y => if y ∈ acc then acc else acc ++ [y]) acc).Nodup := by
  induction l generalizing acc with
  | nil => simpa
  | cons y ys ih =>
      rw [List.foldl_cons]
      by_cases hy : y ∈ acc
      · simp only [hy, if_pos]
        exact ih acc h
      · simp only [hy, if_neg, not_false_iff]
        exact ih _ (by simp [List.nodup_append, h, hy])

theorem dedupFirst_mem (l : List String) (x : String) :
    x ∈ dedupFirst l ↔ x ∈ l := by
  unfold dedupFirst
  rw [dedupFoldl_mem]
  simp

theorem dedupFirst_nodup (l : List String) : (dedupFirst l).Nodup :=
  dedupFoldl_nodup l [] (by simp)

theorem dedupFirst_append (l : List String) (x : String) :
    dedupFirst (l ++ [x]) =
      if x ∈ dedupFirst l then dedupFirst l else dedupFirst l ++ [x] := by
  unfold dedupFirst
  rw [List.foldl_append]
  rfl

/-- The per-identifier answers built from the containers resolving to it,
in candidate order. -/
def answersOfId (u : String) (cs : List Node) (mid : String) : List Answer :=
  (cs.filter (fun d => get_msg_id d = some mid)).map (fun d => build_answer_from_div d u)

/-- The merged answer of a nonempty per-identifier answer list. -/
def mergeChain : List Answer → Option Answer
  | [] => none
  | a :: rest => some (rest.foldl mergeAnswers a)

/-- First present value in a list of optional values. -/
def firstNonNone {α : Type} : List (Option α) → Option α
  | [] => none
  | none :: rest => firstNonNone rest
  | some v :: _ => some v

theorem lookupA_cons (p : String × Answer) (ps : List (String × Answer)) (k : String) :
    lookupA (p :: ps) k = if p.1 = k then some p.2 else lookupA ps k := by
  by_cases hp : p.1 = k
  · simp [lookupA, List.find?_cons_of_pos, hp]
  · simp [lookupA, List.find?_cons_of_neg, hp]

theorem updateA_cons (p : String × Answer) (ps : List (String × Answer)) (k : String)
    (w : Answer) :
    updateA (p :: ps) k w = (if p.1 = k then (k, w) else p) :: updateA ps k w := rfl

theorem removeA_cons (p : String × Answer) (ps : List (String × Answer)) (k : String) :
    removeA (p :: ps) k = if p.1 = k then removeA ps k else p :: removeA ps k := by
  by_cases hp : p.1 = k
  · simp [removeA, List.filter_cons, hp]
  · simp [removeA, List.filter_cons, hp]

theorem lookupA_append (m n : List (String × Answer)) (k : String) :
    lookupA (m ++ n) k =
      match lookupA m k with
      | some v => some v
      | none => lookupA n k := by
  induction m with
  | nil => simp [lookupA]
  | cons p ps ih =>
      rw [List.cons_append, lookupA_cons, lookupA_cons]
      by_cases hp : p.1 = k
      · simp [hp]
      · simp [hp, ih]

theorem lookupA_update_self (m : List (String × Answer)) (k : String) (w : Answer)
    (h : (lookupA m k).isSome) : lookupA (updateA m k w) k = some w := by
  induction m with
  | nil => simp [lookupA] at h
  | cons p ps ih =>
      rw [updateA_cons]
      by_cases hp : p.1 = k
      · rw [if_pos hp, lookupA_cons]
        simp
      · rw [if_neg hp, lookupA_cons, if_neg hp]
        rw [lookupA_cons, if_neg hp] at h
        exact ih h

theorem lookupA_update_other (m : List (String × Answer)) (k k' : String) (w : Answer)
    (h : k' ≠ k) : lookupA (updateA m k w) k' = lookupA m k' := by
  induction m with
  | nil => simp [lookupA, updateA]
  | cons p ps ih =>
      rw [updateA_cons, lookupA_cons, lookupA_cons]
      by_cases hp : p.1 = k
      · rw [if_pos hp]
        have h1 : ¬ ((k, w) : String × Answer).1 = k' := fun he => h he.symm
        have h2 : ¬ p.1 = k' := fun he => h (he ▸ hp)
        rw [if_neg h1, if_neg h2]
        exact ih
      · rw [if_neg hp]
        by_cases hpk : p.1 = k'
        · simp [hpk]
        · simp [hpk, ih]

theorem lookupA_remove_other (m : List (String × Answer)) (k k' : String)
    (h : k' ≠ k) : lookupA (removeA m k) k' = lookupA m k' := by
  induction m with
  | nil => simp [lookupA, removeA]
  | cons p ps ih =>
      rw [removeA_cons, lookupA_cons]
      by_cases hp : p.1 = k
      · rw [if_pos hp]
        have h2 : ¬ p.1 = k' := fun he => h (hp ▸ he ▸ rfl)
        rw [if_neg h2]
        exact ih
      · rw [if_neg hp, lookupA_cons]
        by_cases hpk : p.1 = k'
        · simp [hpk]
        · simp [hpk, ih]

theorem mergeChain_append (l : List Answer) (a : Answer) :
    mergeChain (l ++ [a]) =
      match mergeChain l with
      | none => some a
      | some m => some (mergeAnswers m a) := by
  cases l with
  | nil => rfl
  | cons b bs => simp [mergeChain, List.foldl_append]

theorem foldl_merge_accepted (rest : List Answer) (a : Answer) :
    (rest.foldl mergeAnswers a).is_accepted = (a.is_accepted || rest.any (·.is_accepted)) := by
  induction rest generalizing a with
  | nil => simp
  | cons b bs ih =>
      rw [List.foldl_cons, ih]
      simp [mergeAnswers, Bool.or_assoc]

theorem foldl_merge_message_id (rest : List Answer) (a : Answer) :
    (rest.foldl mergeAnswers a).message_id = a.message_id := by
  induction rest generalizing a with
  | nil => rfl
  | cons b bs ih => rw [List.foldl_cons, ih]; rfl

theorem foldl_merge_upvotes (rest : List Answer) (a : Answer) :
    (rest.foldl mergeAnswers a).upvotes =
      firstNonNone (a.upvotes :: rest.map (·.upvotes)) := by
  induction rest generalizing a with
  | nil => cases h : a.upvotes <;> simp [firstNonNone, h]
  | cons b bs ih =>
      rw [List.foldl_cons, ih]
      cases h : a.upvotes with
      | some v => simp [firstNonNone, mergeAnswers, h]
      | none =>
          simp only [mergeAnswers, h]
          cases hb : b.upvotes with
          | some w => simp [firstNonNone, hb]
          | none => simp [firstNonNone, hb]

/-- With the empty string impossible, the falsy test is the absence test. -/
theorem falsyStr_eq_isNone {o : Option String} (h : o ≠ some "") :
    falsyStr o = o.isNone := by
  cases o with
  | none => rfl
  | some s =>
      have hs : s ≠ "" := fun he => h (by rw [he])
      simp [falsyStr, hs]

theorem foldl_merge_text (rest : List Answer) (a : Answer)
    (ha : a.text ≠ some "") (hrest : ∀ b ∈ rest, b.text ≠ some "") :
    (rest.foldl mergeAnswers a).text = firstNonNone (a.text :: rest.map (·.text)) := by
  induction rest generalizing a with
  | nil => cases h : a.text <;> simp [firstNonNone, h]
  | cons b bs ih =>
      rw [List.foldl_cons]
      have hb : b.text ≠ some "" := hrest b (by simp)
      have hm : (mergeAnswers a b).text ≠ some "" := by
        simp only [mergeAnswers]
        split
        · exact hb
        · exact ha
      rw [ih _ hm (fun c hc => hrest c (by simp [hc]))]
      simp only [mergeAnswers, falsyStr_eq_isNone ha, falsyStr_eq_isNone hb]
      cases h : a.text with
      | some v => simp [firstNonNone, h]
      | none =>
          cases hbt : b.text with
          | some w => simp [firstNonNone, h, hbt]
          | none => simp [firstNonNone, h, hbt]

theorem foldl_merge_created (rest : List Answer) (a : Answer)
    (ha : a.created_at ≠ some "") (hrest : ∀ b ∈ rest, b.created_at ≠ some "") :
    (rest.foldl mergeAnswers a).created_at =
      firstNonNone (a.created_at :: rest.map (·.created_at)) := by
  induction rest generalizing a with
  | nil => cases h : a.created_at <;> simp [firstNonNone, h]
  | cons b bs ih =>
      rw [List.foldl_cons]
      have hb : b.created_at ≠ some "" := hrest b (by simp)
      have hm : (mergeAnswers a b).created_at ≠ some "" := by
        simp only [mergeAnswers]
        split
        · exact hb
        · exact ha
      rw [ih _ hm (fun c hc => hrest c (by simp [hc]))]
      simp only [mergeAnswers, falsyStr_eq_isNone ha, falsyStr_eq_isNone hb]
      cases h : a.created_at with
      | some v => simp [firstNonNone, h]
      | none =>
          cases hbt : b.created_at with
          | some w => simp [firstNonNone, h, hbt]
          | none => simp [firstNonNone, h, hbt]

theorem idsSeq_append (p : List Node) (d : Node) :
    idsSeq (p ++ [d]) = idsSeq p ++
      (match get_msg_id d with
       | some v => if v = "" then [] else [v]
       | none => []) := by
  unfold idsSeq
  rw [List.filterMap_append, List.filter_append]
  congr 1
  cases h : get_msg_id d with
  | none => simp [h]
  | some v => by_cases hv : v = "" <;> simp [h, hv]

theorem answersOfId_append (u : String) (p : List Node) (d : Node) (mid : String) :
    answersOfId u (p ++ [d]) mid = answersOfId u p mid ++
      (if get_msg_id d = some mid then [build_answer_from_div d u] else []) := by
  unfold answersOfId
  rw [List.filter_append, List.map_append]
  congr 1
  by_cases h : get_msg_id d = some mid <;> simp [h]

theorem mem_idsSeq (p : List Node) (v : String) (hv : v ≠ "") :
    v ∈ idsSeq p ↔ ∃ d ∈ p, get_msg_id d = some v := by
  unfold idsSeq
  simp [List.mem_filter, List.mem_filterMap, hv]

theorem answersOfId_ne_nil (u : String) (p : List Node) (v : String) :
    answersOfId u p v ≠ [] ↔ ∃ d ∈ p, get_msg_id d = some v := by
  unfold answersOfId
  simp [List.filter_eq_nil_iff]

theorem dedupStep_inv (u : String) (p : List Node) (d : Node)
    (st : List (String × Answer) × List String)
    (h2 : st.2 = dedupFirst (idsSeq p))
    (h1 : ∀ mid, mid ≠ "" → lookupA st.1 mid = mergeChain (answersOfId u p mid)) :
    (dedupStep u st d).2 = dedupFirst (idsSeq (p ++ [d])) ∧
    (∀ mid, mid ≠ "" → lookupA (dedupStep u st d).1 mid =
      mergeChain (answersOfId u (p ++ [d]) mid)) := by
  cases hid : get_msg_id d with
  | none =>
      have hstep : dedupStep u st d = st := by
        unfold dedupStep
        rw [hid]
        simp [pyTruthyId]
      have hids : idsSeq (p ++ [d]) = idsSeq p := by
        rw [idsSeq_append, hid]
        simp
      refine ⟨by rw [hstep, hids, h2], fun mid hm => ?_⟩
      have happ : answersOfId u (p ++ [d]) mid = answersOfId u p mid := by
        rw [answersOfId_append]
        have : ¬ get_msg_id d = some mid := by rw [hid]; simp
        simp [this]
      rw [hstep, happ]
      exact h1 mid hm
  | some v =>
      by_cases hv : v = ""
      · subst hv
        have hstep : dedupStep u st d = st := by
          unfold dedupStep
          rw [hid]
          simp [pyTruthyId]
        have hids : idsSeq (p ++ [d]) = idsSeq p := by
          rw [idsSeq_append, hid]
          simp
        refine ⟨by rw [hstep, hids, h2], fun mid hm => ?_⟩
        have happ : answersOfId u (p ++ [d]) mid = answersOfId u p mid := by
          rw [answersOfId_append]
          have : ¬ get_msg_id d = some mid := by
            rw [hid]
            simp
            intro he
            exact hm he.symm
          simp [this]
        rw [hstep, happ]
        exact h1 mid hm
      · have hids : idsSeq (p ++ [d]) = idsSeq p ++ [v] := by
          rw [idsSeq_append, hid]
          simp [hv]
        have hlk := h1 v hv
        cases hbase : lookupA st.1 v with
        | some base =>
            have hchain : mergeChain (answersOfId u p v) = some base := by
              rw [← hlk, hbase]
            have hstep : dedupStep u st d =
                (updateA st.1 v (mergeAnswers base (build_answer_from_div d u)), st.2) := by
              unfold dedupStep
              rw [hid]
              simp [pyTruthyId, hv, hbase]
            have hvmem : v ∈ dedupFirst (idsSeq p) := by
              rw [dedupFirst_mem, mem_idsSeq p v hv, ← answersOfId_ne_nil u]
              intro hnil
              rw [hnil] at hchain
              cases hchain
            refine ⟨?_, fun mid hm => ?_⟩
            · rw [hstep, hids, dedupFirst_append, if_pos hvmem, h2]
            · by_cases hmv : mid = v
              · subst hmv
                have happ : answersOfId u (p ++ [d]) mid =
                    answersOfId u p mid ++ [build_answer_from_div d u] := by
                  rw [answersOfId_append, if_pos hid]
                rw [hstep, happ, mergeChain_append, hchain]
                simp only
                exact lookupA_update_self st.1 mid _ (by rw [hbase]; rfl)
              · have happ : answersOfId u (p ++ [d]) mid = answersOfId u p mid := by
                  rw [answersOfId_append]
                  have : ¬ get_msg_id d = some mid := by
                    rw [hid]
                    simp
                    intro he
                    exact hmv he.symm
                  simp [this]
                rw [hstep, happ]
                simp only
                rw [lookupA_update_other st.1 v mid _ hmv]
                exact h1 mid hm
        | none =>
            have hchain : mergeChain (answersOfId u p v) = none := by
              rw [← hlk, hbase]
            have hnil : answersOfId u p v = [] := by
              cases hl : answersOfId u p v with
              | nil => rfl
              | cons x xs => rw [hl] at hchain; cases hchain
            have hstep : dedupStep u st d =
                (st.1 ++ [(v, build_answer_from_div d u)], st.2 ++ [v]) := by
              unfold dedupStep
              rw [hid]
              simp [pyTruthyId, hv, hbase]
            have hvmem : v ∉ dedupFirst (idsSeq p) := by
              rw [dedupFirst_mem, mem_idsSeq p v hv, ← answersOfId_ne_nil u]
              simp [hnil]
            refine ⟨?_, fun mid hm => ?_⟩
            · rw [hstep, hids, dedupFirst_append, if_neg hvmem, h2]
            · by_cases hmv : mid = v
              · subst hmv
                have happ : answersOfId u (p ++ [d]) mid =
                    answersOfId u p mid ++ [build_answer_from_div d u] := by
                  rw [answersOfId_append, if_pos hid]
                rw [hstep, happ, hnil, mergeChain_append]
                simp only [List.nil_append]
                rw [lookupA_append, hbase]
                simp [lookupA_cons, mergeChain]
              · have happ : answersOfId u (p ++ [d]) mid = answersOfId u p mid := by
                  rw [answersOfId_append]
                  have : ¬ get_msg_id d = some mid := by
                    rw [hid]
                    simp
                    intro he
                    exact hmv he.symm
                  simp [this]
                rw [hstep, happ]
                simp only
                rw [lookupA_append]
                have hz : lookupA [(v, build_answer_from_div d u)] mid = none := by
                  rw [lookupA_cons, if_neg (fun he : v = mid => hmv he.symm)]
                  rfl
                rw [hz]
                have hmm : (match lookupA st.1 mid with
                    | some w => some w
                    | none => (none : Option Answer)) = lookupA st.1 mid := by
                  cases lookupA st.1 mid <;> rfl
                rw [hmm]
                exact h1 mid hm

theorem dedup_fold_inv (u : String) (cs : List Node) :
    ∀ (p : List Node) (st : List (String × Answer) × List String),
      st.2 = dedupFirst (idsSeq p) →
      (∀ mid, mid ≠ "" → lookupA st.1 mid = mergeChain (answersOfId u p mid)) →
      (cs.foldl (dedupStep u) st).2 = dedupFirst (idsSeq (p ++ cs)) ∧
      (∀ mid, mid ≠ "" → lookupA (cs.foldl (dedupStep u) st).1 mid =
        mergeChain (answersOfId u (p ++ cs) mid)) := by
  induction cs with
  | nil =>
      intro p st h2 h1
      simpa using ⟨h2, h1⟩
  | cons d ds ih =>
      intro p st h2 h1
      rw [List.foldl_cons]
      have hstep := dedupStep_inv u p d st h2 h1
      have := ih (p ++ [d]) (dedupStep u st d) hstep.1 hstep.2
      rw [List.append_assoc] at this
      simpa using this

theorem dedup_char (u : String) (cs : List Node) :
    (dedupContainers u cs).2 = dedupFirst (idsSeq cs) ∧
    (∀ mid, mid ≠ "" → lookupA (dedupContainers u cs).1 mid =
      mergeChain (answersOfId u cs mid)) := by
  have := dedup_fold_inv u cs [] ([], [])
    (by simp [dedupFirst, idsSeq]) (by intro mid _; simp [lookupA, answersOfId, mergeChain])
  simpa [dedupContainers] using this

/-! ## Characterizing `extract_flat_qna` -/

/-- The first-appearance order of distinct identifiers over the candidate
containers of a page. -/
def qnaOrderOf (soup : Node) : List String :=
  dedupFirst (idsSeq (containersOf soup))

/-- The question identifier chosen for a page. -/
def questionIdOfSoup (soup : Node) : Option String :=
  chooseQuestionId (containersMut (containersOf soup)) (qnaOrderOf soup)

/-- The identifiers of the returned answers: the first-appearance order
with the question identifier removed. -/
def answerIdsOf (soup : Node) : List String :=
  match questionIdOfSoup soup with
  | some q => (qnaOrderOf soup).erase q
  | none => qnaOrderOf soup

theorem mem_qnaOrder_ne  {soup : Node} {mid : String} (h : mid ∈ qnaOrderOf soup) :
    mid ≠ "" := by
  rw [qnaOrderOf, dedupFirst_mem] at h
  unfold idsSeq at h
  simp only [List.mem_filter, decide_eq_true_eq] at h
  exact h.2

theorem answerIds_subset {soup : Node} {mid : String} (h : mid ∈ answerIdsOf soup) :
    mid ∈ qnaOrderOf soup := by
  unfold answerIdsOf at h
  cases hq : questionIdOfSoup soup with
  | none => rw [hq] at h; exact h
  | some q => rw [hq] at h; exact List.mem_of_mem_erase h

/-- The merged answer stored for an identifier, as read off the map. -/
def mergedAnswerOf (u : String) (soup : Node) (mid : String) : Answer :=
  (mergeChain (answersOfId u (containersOf soup) mid)).getD default

/-- The structured-data acceptance override applied while the answer list
is read off. -/
def applyJsonAccept (soup : Node) (mid : String) (a : Answer) : Answer :=
  if (extract_json_ld_accepted_ids soup).contains mid then
    { a with is_accepted := true }
  else a

theorem extract_flat_qna_answers (soup : Node) (u : String) :
    (extract_flat_qna soup u).2.2.1 =
      (answerIdsOf soup).map (fun mid => applyJsonAccept soup mid (mergedAnswerOf u soup mid)) := by
  unfold extract_flat_qna
  by_cases hc : (containersOf soup).isEmpty
  · have hce : containersOf soup = [] := by
      cases hcc : containersOf soup with
      | nil => rfl
      | cons x xs => rw [hcc] at hc; simp [List.isEmpty] at hc
    simp only [hc, if_pos]
    have h1 : qnaOrderOf soup = [] := by
      rw [qnaOrderOf, hce]
      rfl
    have h2 : answerIdsOf soup = [] := by
      unfold answerIdsOf
      cases questionIdOfSoup soup <;> simp [h1]
    rw [h2]
    rfl
  · simp only [hc, if_neg, Bool.false_eq_true, not_false_iff]
    have hchar := dedup_char u (containersOf soup)
    set st := dedupContainers u (containersOf soup) with hst
    have horder : st.2 = qnaOrderOf soup := hchar.1
    have hq : chooseQuestionId (containersMut (containersOf soup)) st.2 =
        questionIdOfSoup soup := by
      rw [horder]
      rfl
    rw [hq]
    have hmap : ∀ mid ∈ answerIdsOf soup,
        (lookupA st.1 mid).getD default = mergedAnswerOf u soup mid := by
      intro mid hm
      have hne := mem_qnaOrder_ne (answerIds_subset hm)
      rw [hchar.2 mid hne]
      rfl
    cases hqid : questionIdOfSoup soup with
    | none =>
        simp only
        have hids : answerIdsOf soup = qnaOrderOf soup := by
          unfold answerIdsOf
          rw [hqid]
        rw [← hids] at horder
        rw [horder]
        refine List.map_congr_left (fun mid hm => ?_)
        rw [hmap mid hm]
        rfl
    | some q =>
        simp only
        by_cases hqe : q = ""
        · rw [if_neg (by rw [hqe]; simp)]
          have hnq : q ∉ qnaOrderOf soup := fun hin => (mem_qnaOrder_ne hin) hqe
          have hids : answerIdsOf soup = qnaOrderOf soup := by
            unfold answerIdsOf
            rw [hqid]
            exact List.erase_of_not_mem hnq
          rw [← hids] at horder
          rw [horder]
          refine List.map_congr_left (fun mid hm => ?_)
          rw [hmap mid hm]
          rfl
        · rw [if_pos hqe]
          have hids : answerIdsOf soup = (qnaOrderOf soup).erase q := by
            unfold answerIdsOf
            rw [hqid]
          cases hlq : lookupA st.1 q with
          | some qa =>
              simp only
              rw [horder, ← hids]
              refine List.map_congr_left (fun mid hm => ?_)
              have hne := mem_qnaOrder_ne (answerIds_subset hm)
              have hnodup : (qnaOrderOf soup).Nodup := by
                rw [qnaOrderOf]
                exact dedupFirst_nodup _
              have hmq : mid ≠ q :=
                ((List.Nodup.mem_erase_iff hnodup).mp (hids ▸ hm)).1
              rw [lookupA_remove_other st.1 q mid hmq, hchar.2 mid hne]
              rfl
          | none =>
              simp only
              have hnq : q ∉ qnaOrderOf soup := by
                intro hin
                have := mem_qnaOrder_ne hin
                rw [hchar.2 q hqe] at hlq
                rw [qnaOrderOf, dedupFirst_mem, mem_idsSeq _ q hqe,
                  ← answersOfId_ne_nil u] at hin
                apply hin
                cases hl : answersOfId u (containersOf soup) q with
                | nil => rfl
                | cons x xs => rw [hl] at hlq; cases hlq
              have hids2 : answerIdsOf soup = qnaOrderOf soup := by
                rw [hids, List.erase_of_not_mem hnq]
              rw [← hids2] at horder
              rw [horder]
              refine List.map_congr_left (fun mid hm => ?_)
              rw [hmap mid hm]
              rfl

theorem questionId_empty (soup : Node) (hce : containersOf soup = []) :
    questionIdOfSoup soup = none := by
  unfold questionIdOfSoup chooseQuestionId rawQuestionId containersMut qnaOrderOf idsSeq
  rw [hce]
  rfl

theorem extract_flat_qna_question (soup : Node) (u : String) :
    (extract_flat_qna soup u).1 =
      (match questionIdOfSoup soup with
       | some q =>
           if q = "" then none
           else (mergeChain (answersOfId u (containersOf soup) q)).bind (fun a => a.text)
       | none => none) ∧
    (extract_flat_qna soup u).2.1 =
      (match questionIdOfSoup soup with
       | some q =>
           if q = "" then none
           else (mergeChain (answersOfId u (containersOf soup) q)).bind (fun a => a.upvotes)
       | none => none) := by
  unfold extract_flat_qna
  by_cases hc : (containersOf soup).isEmpty
  · have hce : containersOf soup = [] := by
      cases hcc : containersOf soup with
      | nil => rfl
      | cons x xs => rw [hcc] at hc; simp [List.isEmpty] at hc
    simp only [hc, if_pos]
    rw [questionId_empty soup hce]
    exact ⟨rfl, rfl⟩
  · simp only [hc, if_neg, Bool.false_eq_true, not_false_iff]
    have hchar := dedup_char u (containersOf soup)
    set st := dedupContainers u (containersOf soup) with hst
    have horder : st.2 = qnaOrderOf soup := hchar.1
    have hq : chooseQuestionId (containersMut (containersOf soup)) st.2 =
        questionIdOfSoup soup := by
      rw [horder]
      rfl
    rw [hq]
    cases hqid : questionIdOfSoup soup with
    | none => exact ⟨rfl, rfl⟩
    | some q =>
        dsimp only
        by_cases hqe : q = ""
        · refine ⟨?_, ?_⟩ <;> rw [if_neg (by rw [hqe]; simp), if_pos hqe]
        · refine ⟨?_, ?_⟩ <;>
            (rw [if_pos hqe, if_neg hqe, hchar.2 q hqe]
             cases mergeChain (answersOfId u (containersOf soup) q) <;> rfl)

theorem extract_flat_qna_count (soup : Node) (u : String) :
    (extract_flat_qna soup u).2.2.2 = (extract_flat_qna soup u).2.2.1.length := by
  unfold extract_flat_qna
  by_cases hc : (containersOf soup).isEmpty
  · simp [hc]
  · simp only [hc, if_neg, Bool.false_eq_true, not_false_iff]

theorem answersOfId_builds {u : String} {cs : List Node} {mid : String} {b : Answer}
    (h : b ∈ answersOfId u cs mid) : ∃ d, b = build_answer_from_div d u := by
  unfold answersOfId at h
  rcases List.mem_map.mp h with ⟨d, _, hd⟩
  exact ⟨d, hd.symm⟩

theorem mergedAnswer_spec (u : String) (soup : Node) (mid : String)
    (h : mid ∈ qnaOrderOf soup) :
    answersOfId u (containersOf soup) mid ≠ [] ∧
    (mergedAnswerOf u soup mid).is_accepted =
      (answersOfId u (containersOf soup) mid).any (fun a => a.is_accepted) ∧
    (mergedAnswerOf u soup mid).message_id = some mid ∧
    (mergedAnswerOf u soup mid).text =
      firstNonNone ((answersOfId u (containersOf soup) mid).map (fun a => a.text)) ∧
    (mergedAnswerOf u soup mid).created_at =
      firstNonNone ((answersOfId u (containersOf soup) mid).map (fun a => a.created_at)) ∧
    (mergedAnswerOf u soup mid).upvotes =
      firstNonNone ((answersOfId u (containersOf soup) mid).map (fun a => a.upvotes)) := by
  have hne := mem_qnaOrder_ne h
  have hmem : mid ∈ idsSeq (containersOf soup) := by
    rw [qnaOrderOf, dedupFirst_mem] at h
    exact h
  have hnil : answersOfId u (containersOf soup) mid ≠ [] := by
    rw [answersOfId_ne_nil, ← mem_idsSeq _ _ hne]
    exact hmem
  cases hl : answersOfId u (containersOf soup) mid with
  | nil => exact absurd hl hnil
  | cons a rest =>
      have hm : mergedAnswerOf u soup mid = rest.foldl mergeAnswers a := by
        unfold mergedAnswerOf
        rw [hl]
        rfl
      have haid : a.message_id = some mid := by
        revert hl
        unfold answersOfId
        cases hf : (containersOf soup).filter (fun d => get_msg_id d = some mid) with
        | nil => intro hl; cases hl
        | cons d0 ds =>
            intro hl
            have hpred : get_msg_id d0 = some mid := by
              have : d0 ∈ (containersOf soup).filter (fun d => get_msg_id d = some mid) := by
                rw [hf]; simp
              simpa using (List.mem_filter.mp this).2
            have hbuild : a = build_answer_from_div d0 u := by
              rw [List.map_cons] at hl
              exact (List.cons_eq_cons.mp hl).1.symm
            rw [hbuild]
            exact hpred
      have htexts : ∀ b ∈ a :: rest, b.text ≠ some "" := by
        intro b hb
        rw [← hl] at hb
        rcases answersOfId_builds hb with ⟨d, hd⟩
        rw [hd]
        exact build_answer_text_ne d u
      have hcreats : ∀ b ∈ a :: rest, b.created_at ≠ some "" := by
        intro b hb
        rw [← hl] at hb
        rcases answersOfId_builds hb with ⟨d, hd⟩
        rw [hd]
        exact build_answer_created_ne d u
      refine ⟨by simp, ?_, ?_, ?_, ?_, ?_⟩
      · rw [hm, foldl_merge_accepted]
        simp
      · rw [hm, foldl_merge_message_id]
        exact haid
      · rw [hm, foldl_merge_text rest a (htexts a (by simp))
          (fun b hb => htexts b (by simp [hb]))]
        rfl
      · rw [hm, foldl_merge_created rest a (hcreats a (by simp))
          (fun b hb => hcreats b (by simp [hb]))]
        rfl
      · rw [hm, foldl_merge_upvotes]
        rfl

theorem build_answer_message_id (d : Node) (u : String) :
    (build_answer_from_div d u).message_id = get_msg_id d := rfl

theorem build_answer_accepted (d : Node) (u : String) :
    (build_answer_from_div d u).is_accepted =
      container_has_accepted_marker_for_message (mutateDiv d) := rfl

theorem applyJson_message_id (soup : Node) (mid : String) (a : Answer) :
    (applyJsonAccept soup mid a).message_id = a.message_id := by
  unfold applyJsonAccept
  split <;> rfl

theorem applyJson_accepted (soup : Node) (mid : String) (a : Answer) :
    (applyJsonAccept soup mid a).is_accepted =
      (a.is_accepted || (extract_json_ld_accepted_ids soup).contains mid) := by
  unfold applyJsonAccept
  cases hcon : (extract_json_ld_accepted_ids soup).contains mid with
  | false =>
      rw [if_neg (by simp [hcon])]
      simp [hcon]
  | true =>
      rw [if_pos (by simp [hcon])]
      simp [hcon]

theorem anyAccepted_iff (u : String) (cs : List Node) (mid : String) :
    (answersOfId u cs mid).any (fun a => a.is_accepted) = true ↔
      ∃ d ∈ cs, get_msg_id d = some mid ∧
        container_has_accepted_marker_for_message (mutateDiv d) = true := by
  unfold answersOfId
  simp [List.any_eq_true, List.mem_filter, build_answer_accepted]
  constructor
  · rintro ⟨d, ⟨hd, hp⟩, hacc⟩
    exact ⟨d, hd, hp, hacc⟩
  · rintro ⟨d, hd, hp, hacc⟩
    exact ⟨d, ⟨hd, hp⟩, hacc⟩

/-! ## The claims -/

/-- C2: a surviving Answer of a Q&A page is accepted exactly when some
container resolving to its identifier carries the DOM acceptance marker
(own or wrapper classes, or the visible hint text) or when the identifier
appears among the structured-data accepted references; and the promoted
question fields are computed from the merged answers alone, without the
structured-data acceptance set. -/
theorem claim_C2 (soup : Node) (u : String) (a : Answer) (mid : String)
    (ha : a ∈ (extract_flat_qna soup u).2.2.1) (hid : a.message_id = some mid) :
    (a.is_accepted = true ↔
      ((∃ d ∈ containersOf soup, get_msg_id d = some mid ∧
          container_has_accepted_marker_for_message (mutateDiv d) = true) ∨
        mid ∈ extract_json_ld_accepted_ids soup)) ∧
    (extract_flat_qna soup u).1 =
      (match questionIdOfSoup soup with
       | some q =>
           if q = "" then none
           else (mergeChain (answersOfId u (containersOf soup) q)).bind (fun x => x.text)
       | none => none) := by
  refine ⟨?_, (extract_flat_qna_question soup u).1⟩
  rw [extract_flat_qna_answers] at ha
  rcases List.mem_map.mp ha with ⟨mid', hmid', heq⟩
  have hspec := mergedAnswer_spec u soup mid' (answerIds_subset hmid')
  have hmsg : a.message_id = some mid' := by
    rw [← heq, applyJson_message_id]
    exact hspec.2.2.1
  have hmm : mid' = mid := by
    rw [hmsg] at hid
    exact Option.some.inj hid
  subst hmm
  have hacc : a.is_accepted =
      ((answersOfId u (containersOf soup) mid').any (fun x => x.is_accepted) ||
        (extract_json_ld_accepted_ids soup).contains mid') := by
    rw [← heq, applyJson_accepted, hspec.2.1]
  rw [hacc]
  simp only [Bool.or_eq_true, anyAccepted_iff]
  constructor
  · rintro (h | h)
    · exact Or.inl h
    · exact Or.inr (by simpa using h)
  · rintro (h | h)
    · exact Or.inl h
    · exact Or.inr (by simpa using h)

/-- C3: the answer identifiers of a Q&A page are exactly the
first-appearance order of the distinct resolved identifiers with the
chosen question identifier erased, and the question identifier never
appears among the returned answers. -/
theorem claim_C3 (soup : Node) (u : String) :
    ((extract_flat_qna soup u).2.2.1.map (fun a => a.message_id) =
      (match questionIdOfSoup soup with
       | some q => (dedupFirst (idsSeq (containersOf soup))).erase q
       | none => dedupFirst (idsSeq (containersOf soup))).map some) ∧
    (∀ q, questionIdOfSoup soup = some q →
      some q ∉ (extract_flat_qna soup u).2.2.1.map (fun a => a.message_id)) := by
  have h1 : (extract_flat_qna soup u).2.2.1.map (fun a => a.message_id) =
      (answerIdsOf soup).map some := by
    rw [extract_flat_qna_answers, List.map_map]
    refine List.map_congr_left (fun mid hm => ?_)
    have hspec := mergedAnswer_spec u soup mid (answerIds_subset hm)
    show (applyJsonAccept soup mid (mergedAnswerOf u soup mid)).message_id = some mid
    rw [applyJson_message_id]
    exact hspec.2.2.1
  refine ⟨h1, fun q hq hmem => ?_⟩
  rw [h1] at hmem
  have hqin : q ∈ answerIdsOf soup := by
    rcases List.mem_map.mp hmem with ⟨x, hx, he⟩
    rwa [Option.some.inj he] at hx
  unfold answerIdsOf at hqin
  rw [hq] at hqin
  have hnodup : (qnaOrderOf soup).Nodup := by
    rw [qnaOrderOf]
    exact dedupFirst_nodup _
  exact ((List.Nodup.mem_erase_iff hnodup).mp hqin).1 rfl

/-! ## A concrete Q&A page used by the witnesses -/

/-- A message body wrapper. -/
def exBody (s : String) : Node :=
  Node.elem "div" [("class", "lia-message-body")] [Node.elem "p" [] [Node.text s]]

/-- A small Q&A page: a marked question, a duplicated answer 55 (one
empty container carrying the accepted class, one with the body), an
answer 77 accepted only through the structured data, and three tag links. -/
def exSoup : Node :=
  Node.elem "[document]" [] [
    Node.elem "div" [("id", "message-1"), ("class", "lia-message-view-question")]
      [exBody "How do I configure X?"],
    Node.elem "div" [("id", "message-55"), ("class", "lia-accepted-solution")] [],
    Node.elem "div" [("data-lia-message-uid", "55")] [exBody "Use config Y."],
    Node.elem "div" [("id", "message-77")] [exBody "Answer B."],
    Node.elem "script" [("type", "application/ld+json")]
      [Node.text "\x7b\"@type\": \"QAPage\", \"mainEntity\": \x7b\"acceptedAnswer\": \x7b\"url\": \"https://x/page#M77\"\x7d\x7d\x7d"],
    Node.elem "a" [("rel", "tag")] [Node.text "ABAP"],
    Node.elem "a" [("rel", "tag")] [Node.text "abap"],
    Node.elem "a" [("rel", "tag")] [Node.text "HCM"]
  ]

/-- The answer with identifier 77 as the extraction returns it. -/
def exAnswer77 : Answer :=
  { message_id := some "77", message_url := some "https://ex#M77",
    author := none, created_at := none, text := some "Answer B.",
    is_accepted := true, upvotes := none }

/-- Witness for C2 at the concrete page: answer 77 carries no DOM marker
and is accepted exactly because of the structured-data reference. -/
theorem claim_C2_witness :
    (exAnswer77.is_accepted = true ↔
      ((∃ d ∈ containersOf exSoup, get_msg_id d = some "77" ∧
          container_has_accepted_marker_for_message (mutateDiv d) = true) ∨
        "77" ∈ extract_json_ld_accepted_ids exSoup)) ∧
    (extract_flat_qna exSoup "https://ex").1 =
      (match questionIdOfSoup exSoup with
       | some q =>
           if q = "" then none
           else (mergeChain (answersOfId "https://ex" (containersOf exSoup) q)).bind
             (fun x => x.text)
       | none => none) :=
  claim_C2 exSoup "https://ex" exAnswer77 "77" (by decide) (by decide)

/-- Witness for C3 at the concrete page: the answers are 55 then 77 in
first-appearance order and the question identifier 1 is absent. -/
theorem claim_C3_witness :
    ((extract_flat_qna exSoup "https://ex").2.2.1.map (fun a => a.message_id) =
      [some "55", some "77"]) ∧
    some "1" ∉ (extract_flat_qna exSoup "https://ex").2.2.1.map (fun a => a.message_id) :=
  ⟨by decide, (claim_C3 exSoup "https://ex").2 "1" (by decide)⟩

theorem filter_eq_singleton {l : List String} {mid : String}
    (hn : l.Nodup) (hmem : mid ∈ l) : l.filter (fun x => x = mid) = [mid] := by
  induction l with
  | nil => cases hmem
  | cons a rest ih =>
      rw [List.filter_cons]
      by_cases ha : a = mid
      · subst ha
        have hnot : a ∉ rest := (List.nodup_cons.mp hn).1
        have : rest.filter (fun x => x = a) = [] := by
          rw [List.filter_eq_nil_iff]
          intro b hb
          simp only [decide_eq_true_eq]
          intro he
          exact hnot (he ▸ hb)
        simp [this]
      · have hmem2 : mid ∈ rest := by
          cases List.mem_cons.mp hmem with
          | inl he => exact absurd he.symm ha
          | inr hr => exact hr
        have := ih (List.nodup_cons.mp hn).2 hmem2
        simp [ha, this]

theorem mergeChain_of_mem {u : String} {soup : Node} {mid : String}
    (h : mid ∈ qnaOrderOf soup) :
    mergeChain (answersOfId u (containersOf soup) mid) =
      some (mergedAnswerOf u soup mid) := by
  have hnil := (mergedAnswer_spec u soup mid h).1
  unfold mergedAnswerOf
  cases hc : mergeChain (answersOfId u (containersOf soup) mid) with
  | none =>
      cases hl : answersOfId u (containersOf soup) mid with
      | nil => exact absurd hl hnil
      | cons a rest => rw [hl] at hc; cases hc
  | some x => rfl

/-- C1 (amended): containers sharing a (non-empty) identifier collapse to
exactly one Answer, or to the one question promotion; the record-level
accepted flag is the OR of the individual containers' DOM acceptance
signals, further OR-ed with the structured-data accepted signal for that
identifier; body text, creation timestamp and upvote count take the
first-seen present value among the containers in candidate order. -/
theorem claim_C1 (soup : Node) (u : String) (mid : String) (hm : mid ≠ "")
    (h2 : 2 ≤ ((containersOf soup).filter (fun d => get_msg_id d = some mid)).length) :
    ((extract_flat_qna soup u).2.2.1.filter (fun a => a.message_id = some mid) =
      (if questionIdOfSoup soup = some mid then []
       else [applyJsonAccept soup mid (mergedAnswerOf u soup mid)])) ∧
    (questionIdOfSoup soup = some mid →
      (extract_flat_qna soup u).1 = (mergedAnswerOf u soup mid).text ∧
      (extract_flat_qna soup u).2.1 = (mergedAnswerOf u soup mid).upvotes) ∧
    ((applyJsonAccept soup mid (mergedAnswerOf u soup mid)).is_accepted =
      ((answersOfId u (containersOf soup) mid).any (fun a => a.is_accepted) ||
        (extract_json_ld_accepted_ids soup).contains mid)) ∧
    ((mergedAnswerOf u soup mid).text =
      firstNonNone ((answersOfId u (containersOf soup) mid).map (fun a => a.text))) ∧
    ((mergedAnswerOf u soup mid).created_at =
      firstNonNone ((answersOfId u (containersOf soup) mid).map (fun a => a.created_at))) ∧
    ((mergedAnswerOf u soup mid).upvotes =
      firstNonNone ((answersOfId u (containersOf soup) mid).map (fun a => a.upvotes))) := by
  have hfil : (containersOf soup).filter (fun d => get_msg_id d = some mid) ≠ [] := by
    intro he
    rw [he] at h2
    simp at h2
  have hqor : mid ∈ qnaOrderOf soup := by
    rw [qnaOrderOf, dedupFirst_mem, mem_idsSeq _ _ hm, ← answersOfId_ne_nil u]
    unfold answersOfId
    simp [hfil]
  have hspec := mergedAnswer_spec u soup mid hqor
  have hnodup : (qnaOrderOf soup).Nodup := by
    rw [qnaOrderOf]
    exact dedupFirst_nodup _
  refine ⟨?_, ?_, ?_, hspec.2.2.2.1, hspec.2.2.2.2.1, hspec.2.2.2.2.2⟩
  · rw [extract_flat_qna_answers, List.filter_map]
    have hcong : (answerIdsOf soup).filter
          ((fun a => a.message_id = some mid) ∘
            (fun mid' => applyJsonAccept soup mid' (mergedAnswerOf u soup mid'))) =
        (answerIdsOf soup).filter (fun x => x = mid) := by
      refine List.filter_congr (fun mid' hmem' => ?_)
      have hspec' := mergedAnswer_spec u soup mid' (answerIds_subset hmem')
      simp only [Function.comp, applyJson_message_id, hspec'.2.2.1]
      simp
    rw [hcong]
    by_cases hq : questionIdOfSoup soup = some mid
    · rw [if_pos hq]
      have hnots : mid ∉ answerIdsOf soup := by
        unfold answerIdsOf
        rw [hq]
        intro hin
        exact ((List.Nodup.mem_erase_iff hnodup).mp hin).1 rfl
      have : (answerIdsOf soup).filter (fun x => x = mid) = [] := by
        rw [List.filter_eq_nil_iff]
        intro b hb
        simp only [decide_eq_true_eq]
        intro he
        exact hnots (he ▸ hb)
      rw [this]
      rfl
    · rw [if_neg hq]
      have hmemids : mid ∈ answerIdsOf soup := by
        unfold answerIdsOf
        cases hqq : questionIdOfSoup soup with
        | none => exact hqor
        | some q =>
            have hne : mid ≠ q := by
              intro he
              subst he
              exact hq hqq
            have hnodup2 := hnodup
            exact (List.Nodup.mem_erase_iff hnodup2).mpr ⟨hne, hqor⟩
      have hnodupIds : (answerIdsOf soup).Nodup := by
        unfold answerIdsOf
        cases questionIdOfSoup soup with
        | none => exact hnodup
        | some q => exact hnodup.erase q
      rw [filter_eq_singleton hnodupIds hmemids]
      rfl
  · intro hq
    have hques := extract_flat_qna_question soup u
    rw [hq] at hques
    have hch := mergeChain_of_mem (u := u) hqor
    constructor
    · rw [hques.1]
      dsimp only
      rw [if_neg hm, hch]
      rfl
    · rw [hques.2]
      dsimp only
      rw [if_neg hm, hch]
      rfl
  · rw [applyJson_accepted, hspec.2.1]

/-- The body wrapper shared by the counterexample page. -/
def c1Body (s : String) : Node :=
  Node.elem "div" [("class", "lia-message-body")] [Node.elem "p" [] [Node.text s]]

/-- A page where two containers resolve to identifier 55, neither carries
any DOM acceptance signal, and a structured-data block marks 55 accepted. -/
def c1Soup : Node :=
  Node.elem "[document]" [] [
    Node.elem "div" [("id", "message-1")] [c1Body "The question body."],
    Node.elem "div" [("id", "message-55")] [],
    Node.elem "div" [("data-lia-message-uid", "55")] [c1Body "Use config Y."],
    Node.elem "script" [("type", "application/ld+json")]
      [Node.text "\x7b\"@type\": \"QAPage\", \"mainEntity\": \x7b\"acceptedAnswer\": \x7b\"url\": \"https://x/page#M55\"\x7d\x7d\x7d"]
  ]

/-- C1 counterexample: both containers of identifier 55 carry a false
acceptance signal, yet the single assembled Answer for 55 is accepted
(the structured-data reference forces it), so the assembled flag is not
the OR of the containers' individual signals. -/
theorem claim_C1_counterexample :
    (((containersOf c1Soup).filter (fun d => get_msg_id d = some "55")).map
        (fun d => container_has_accepted_marker_for_message (mutateDiv d)) =
      [false, false]) ∧
    ((extract_flat_qna c1Soup "https://ex").2.2.1.map
        (fun a => (a.message_id, a.is_accepted)) = [(some "55", true)]) :=
  ⟨by decide, by decide⟩

/-- C4: an anchor whose rendered text begins with an at-sign contributes
exactly that text to the output, with no Markdown link syntax, whatever
its attributes (in particular its href) hold. -/
theorem claim_C4 (base_url : String) (pieces : List String) (nm : String)
    (attrs : List (String × String)) (cs : List Node)
    (ha : lowerStr nm = "a")
    (hat : pyStartsWith "@" (getText " " true (Node.elem nm attrs cs)) = true) :
    walk base_url pieces (Node.elem nm attrs cs) =
      pieces ++ [getText " " true (Node.elem nm attrs cs)] := by
  rw [walk]
  dsimp only
  rw [ha]
  rw [if_neg (by decide)]
  rw [if_pos rfl]
  rw [if_pos hat]

/-- Witness for C4: a mention anchor that does carry an href. -/
theorem claim_C4_witness :
    walk "https://base" []
        (Node.elem "a" [("href", "https://x/u")] [Node.text "@JohnDoe"]) =
      [] ++ [getText " " true
        (Node.elem "a" [("href", "https://x/u")] [Node.text "@JohnDoe"])] :=
  claim_C4 "https://base" [] "a" [("href", "https://x/u")] [Node.text "@JohnDoe"]
    (by decide) (by decide)

theorem build_message_id (d : Node) (u : String) :
    (build_answer_from_div d u).message_id = get_msg_id d := rfl

theorem dedup_skips (u : String) (cs : List Node)
    (st : List (String × Answer) × List String) :
    cs.foldl (dedupStep u) st =
      (cs.filter (fun d => pyTruthyId (get_msg_id d))).foldl (dedupStep u) st := by
  induction cs generalizing st with
  | nil => rfl
  | cons d rest ih =>
      rw [List.foldl_cons, List.filter_cons]
      cases hd : pyTruthyId (get_msg_id d) with
      | false =>
          have hstep : dedupStep u st d = st := by
            unfold dedupStep
            dsimp only
            rw [if_pos (by simp [hd])]
          rw [hstep]
          simp only [Bool.false_eq_true, if_false]
          exact ih st
      | true =>
          simp only [if_true]
          rw [List.foldl_cons]
          exact ih (dedupStep u st d)

theorem blogStep_count (u : String) (st : List Answer × List String) (d : Node) :
    ((blogStep u st d).1.filter (fun a => ! pyTruthyId a.message_id)).length =
      (st.1.filter (fun a => ! pyTruthyId a.message_id)).length +
      (if pyTruthyId (get_msg_id d) then 0 else 1) := by
  unfold blogStep
  dsimp only
  by_cases hcond : pyTruthyId (get_msg_id d) = true ∧
      st.2.contains ((get_msg_id d).getD "") = true
  · rw [if_pos hcond]
    simp [hcond.1]
  · rw [if_neg hcond]
    dsimp only
    rw [List.filter_append]
    have hm : ({ build_answer_from_div d u with is_accepted := false } : Answer).message_id =
        get_msg_id d := rfl
    cases hd : pyTruthyId (get_msg_id d) with
    | true => simp [hm, build_message_id, hd]
    | false => simp [hm, build_message_id, hd]

theorem blog_fold_count (u : String) (cs : List Node) (st : List Answer × List String) :
    ((cs.foldl (blogStep u) st).1.filter (fun a => ! pyTruthyId a.message_id)).length =
      (st.1.filter (fun a => ! pyTruthyId a.message_id)).length +
      (cs.filter (fun d => ! pyTruthyId (get_msg_id d))).length := by
  induction cs generalizing st with
  | nil => simp
  | cons d rest ih =>
      rw [List.foldl_cons, List.filter_cons, ih (blogStep u st d), blogStep_count]
      cases hd : pyTruthyId (get_msg_id d) with
      | true => simp [hd]
      | false => simp [hd]; omega

/-- C5 (amended): on the Q&A path a container with no resolvable
identifier is invisible to the deduplication fold — the fold over the
containers equals the fold over the identifiable ones only — while the
blog comment path keeps every such container as one Answer with an
absent identifier (one per id-less comment container). -/
theorem claim_C5 :
    (∀ (u : String) (cs : List Node) (st : List (String × Answer) × List String),
      cs.foldl (dedupStep u) st =
        (cs.filter (fun d => pyTruthyId (get_msg_id d))).foldl (dedupStep u) st) ∧
    (∀ (u : String) (soup : Node),
      ((parse_blog_page u soup).answers.filter
          (fun a => ! pyTruthyId a.message_id)).length =
        ((findAllAnc blogCommentSel soup).filter
          (fun d => ! pyTruthyId (get_msg_id d))).length) := by
  constructor
  · exact dedup_skips
  · intro u soup
    have h := blog_fold_count u (findAllAnc blogCommentSel soup) ([], [])
    simpa using h

/-- A blog page whose single comment container has an id that yields no
message identifier. -/
def c5Soup : Node :=
  Node.elem "[document]" [] [
    Node.elem "div" [("class", "comments")] [
      Node.elem "div" [("id", "message-abc")] [c1Body "Nice post!"]]]

/-- C5 counterexample: the unidentifiable comment container is not
dropped by the blog parser — it contributes an Answer whose identifier
is absent. -/
theorem claim_C5_counterexample :
    (parse_blog_page "https://ex/blog" c5Soup).answers.map (fun a => a.message_id) =
      [none] := by decide

/-- C6 (amended): the body extraction never returns the empty string —
its result is absent or a value of positive length. -/
theorem claim_C6 :
    ∀ (container : Node) (page_url : String),
      (extract_body_markdown container page_url).elim True (fun s => 0 < s.length) := by
  intro c u
  cases h : extract_body_markdown c u with
  | none => trivial
  | some s =>
      simp only [Option.elim]
      cases hs : s.data with
      | nil =>
          exfalso
          have hse : s = "" := by
            cases s with
            | mk l =>
                simp only at hs
                rw [hs]
          exact @extract_body_markdown_ne c u (hse ▸ h)
      | cons a l =>
          have hlen : s.length = s.data.length := rfl
          rw [hlen, hs]
          simp

/-- A blog page whose article body renders to nothing. -/
def c6Soup : Node :=
  Node.elem "[document]" [] [
    Node.elem "div" [("class", "lia-article-body")] [
      Node.elem "script" [] [Node.text "var x = 1;"]]]

/-- C6 counterexample: the blog parser stores the empty string — not an
absent value — as the question text of a page whose article body renders
to nothing. -/
theorem claim_C6_counterexample :
    (parse_blog_page "https://ex/blog" c6Soup).question_text = some "" := by decide

/-- The normalization `uniq_push` applies before testing a candidate:
absent, empty and whitespace-only candidates vanish, the rest are
stripped. -/
def cleanTag : Option String → Option String
  | none => none
  | some v =>
      if v = "" then none
      else if pyStrip v = "" then none
      else some (pyStrip v)

/-- The push applied to a surviving candidate: dropped when its
lower-cased form is already present, appended otherwise. -/
def pushStep (arr : List String) (vn : String) : List String :=
  if arr.any (fun x => lowerStr x = lowerStr vn) then arr else arr ++ [vn]

theorem uniq_push_as_step (arr : List String) (o : Option String) :
    uniq_push arr o =
      match cleanTag o with
      | none => arr
      | some vn => pushStep arr vn := by
  cases o with
  | none => rfl
  | some v =>
      unfold uniq_push cleanTag pushStep
      by_cases h0 : v = ""
      · simp [h0]
      · by_cases h1 : pyStrip v = "" <;> simp [h0, h1]

theorem foldl_uniq_push_eq (l : List (Option String)) (acc : List String) :
    l.foldl uniq_push acc = (l.filterMap cleanTag).foldl pushStep acc := by
  induction l generalizing acc with
  | nil => rfl
  | cons o rest ih =>
      rw [List.foldl_cons, List.filterMap_cons, uniq_push_as_step]
      cases cleanTag o with
      | none => exact ih acc
      | some vn => rw [List.foldl_cons]; exact ih (pushStep acc vn)

theorem pushStep_pos {arr : List String} {v : String}
    (h : arr.any (fun x => lowerStr x = lowerStr v) = true) :
    pushStep arr v = arr := by
  unfold pushStep
  rw [if_pos h]

theorem pushStep_neg {arr : List String} {v : String}
    (h : arr.any (fun x => lowerStr x = lowerStr v) = false) :
    pushStep arr v = arr ++ [v] := by
  unfold pushStep
  rw [if_neg (by simp [h])]

theorem pushFold_props (m : List String) :
    List.Pairwise (fun a b => lowerStr a ≠ lowerStr b) (m.foldl pushStep []) ∧
    (m.foldl pushStep []).Sublist m ∧
    (∀ v ∈ m, ∃ w ∈ m.foldl pushStep [], lowerStr w = lowerStr v) ∧
    (∀ w ∈ m.foldl pushStep [],
      m.find? (fun v => lowerStr v = lowerStr w) = some w) := by
  induction m using List.reverseRecOn with
  | nil => exact ⟨List.Pairwise.nil, List.Sublist.refl _, by simp, by simp⟩
  | append_singleton m v ih =>
      obtain ⟨ihp, ihs, ihc, ihf⟩ := ih
      rw [List.foldl_append, List.foldl_cons, List.foldl_nil]
      by_cases hany : (m.foldl pushStep []).any
          (fun x => lowerStr x = lowerStr v) = true
      · rw [pushStep_pos hany]
        refine ⟨ihp, ihs.trans (by simp), ?_, ?_⟩
        · intro x hx
          rcases List.mem_append.mp hx with hx | hx
          · exact ihc x hx
          · rcases List.any_eq_true.mp hany with ⟨w, hw, hwv⟩
            have hx' : x = v := by
              cases hx with
              | head => rfl
              | tail _ h => cases h
            exact ⟨w, hw, by
              rw [hx']
              exact of_decide_eq_true hwv⟩
        · intro w hw
          rw [List.find?_append, ihf w hw]
          rfl
      · have hanyf : (m.foldl pushStep []).any
            (fun x => lowerStr x = lowerStr v) = false := by
          cases h : (m.foldl pushStep []).any (fun x => lowerStr x = lowerStr v) with
          | true => exact absurd h hany
          | false => rfl
        rw [pushStep_neg hanyf]
        have hnew : ∀ w ∈ m.foldl pushStep [], lowerStr w ≠ lowerStr v := by
          intro w hw
          intro he
          have : (m.foldl pushStep []).any (fun x => lowerStr x = lowerStr v) = true :=
            List.any_eq_true.mpr ⟨w, hw, decide_eq_true he⟩
          exact hany this
        have hnoneM : ∀ x ∈ m, lowerStr x ≠ lowerStr v := by
          intro x hx he
          rcases ihc x hx with ⟨w, hw, hwe⟩
          exact hnew w hw (hwe.trans he)
        refine ⟨?_, ?_, ?_, ?_⟩
        · rw [List.pairwise_append]
          refine ⟨ihp, by simp, ?_⟩
          intro a ha b hb
          have hb' : b = v := by
            cases hb with
            | head => rfl
            | tail _ h => cases h
          rw [hb']
          exact hnew a ha
        · exact ihs.append (List.Sublist.refl _)
        · intro x hx
          rcases List.mem_append.mp hx with hx | hx
          · rcases ihc x hx with ⟨w, hw, hwe⟩
            exact ⟨w, List.mem_append_left _ hw, hwe⟩
          · have hx' : x = v := by
              cases hx with
              | head => rfl
              | tail _ h => cases h
            exact ⟨v, List.mem_append_right _ (by simp), by rw [hx']⟩
        · intro w hw
          rcases List.mem_append.mp hw with hw | hw
          · rw [List.find?_append, ihf w hw]
            rfl
          · have hw' : w = v := by
              cases hw with
              | head => rfl
              | tail _ h => cases h
            subst hw'
            rw [List.find?_append]
            have hnoM : m.find? (fun x => lowerStr x = lowerStr w) = none := by
              rw [List.find?_eq_none]
              intro x hx
              simp only [decide_eq_true_eq]
              exact hnoneM x hx
            rw [hnoM]
            simp

/-- C7: the record's tags are the `uniq_push` fold of the candidates; the
fold is pairwise distinct up to letter case, keeps the cleaned candidates'
order, covers every cleaned candidate's case class, and each kept tag is
the first cleaned candidate of its case class. -/
theorem claim_C7 (soup : Node) :
    (extract_common_fields soup).tags = (tagCandidates soup).foldl uniq_push [] ∧
    List.Pairwise (fun a b => lowerStr a ≠ lowerStr b)
      (extract_common_fields soup).tags ∧
    (extract_common_fields soup).tags.Sublist
      ((tagCandidates soup).filterMap cleanTag) ∧
    (∀ v ∈ (tagCandidates soup).filterMap cleanTag,
      ∃ w ∈ (extract_common_fields soup).tags, lowerStr w = lowerStr v) ∧
    (∀ w ∈ (extract_common_fields soup).tags,
      ((tagCandidates soup).filterMap cleanTag).find?
        (fun v => lowerStr v = lowerStr w) = some w) := by
  have htags : (extract_common_fields soup).tags =
      (tagCandidates soup).foldl uniq_push [] := rfl
  have heq := foldl_uniq_push_eq (tagCandidates soup) []
  have hp := pushFold_props ((tagCandidates soup).filterMap cleanTag)
  rw [htags, heq]
  exact ⟨rfl, hp.1, hp.2.1, hp.2.2.1, hp.2.2.2⟩

/-- Witness for C7: on the example page the kept representative of the
class of "ABAP" and "abap" is the first-encountered "ABAP". -/
theorem claim_C7_witness :
    ((tagCandidates exSoup).filterMap cleanTag).find?
        (fun v => lowerStr v = lowerStr "ABAP") = some "ABAP" :=
  (claim_C7 exSoup).2.2.2.2 "ABAP" (by decide)

/-- C8: decoding a script block is local — the blocks around it come out
the same whether it parses, parses only after the trailing-comma repair,
or is skipped; concretely, a trailing-comma array fails the first parse,
is recovered by the one repair, and a block failing both attempts is
skipped without losing the blocks after it. -/
theorem claim_C8 :
    (∀ (pre post : List String) (c : String),
      extract_json_ld_blocks (pre ++ c :: post) =
        extract_json_ld_blocks pre ++
        (if c = "" then []
         else
           match json_loads c with
           | some b => [b]
           | none =>
               match json_loads (fixTrailingCommas c) with
               | some b => [b]
               | none => []) ++
        extract_json_ld_blocks post) ∧
    json_loads "[1, 2,]" = none ∧
    extract_json_ld_blocks ["[1, 2,]"] =
      [Json.arr [Json.num 1 0, Json.num 2 0]] ∧
    extract_json_ld_blocks ["\x7bbad", "true"] = [Json.bool true] := by
  refine ⟨?_, rfl, rfl, rfl⟩
  intro pre post c
  unfold extract_json_ld_blocks
  rw [List.filterMap_append, List.filterMap_cons]
  by_cases h0 : c = ""
  · simp [h0]
  · cases hj : json_loads c with
    | some b => simp [h0, hj]
    | none =>
        cases hj2 : json_loads (fixTrailingCommas c) with
        | some b => simp [h0, hj, hj2]
        | none => simp [h0, hj, hj2]

/-- C9: a Q&A page on which no container yields a (truthy) identifier
still produces a full record: empty answers, reply count zero, absent
question text and upvotes, and the page-level metadata populated as for
any page. -/
theorem claim_C9 (url : String) (soup : Node)
    (h : ∀ d ∈ containersOf soup, pyTruthyId (get_msg_id d) = false) :
    parse_qna_page url soup =
      { url := url, lastmod_from_sitemap := none, content_type := "qna",
        title := (extract_common_fields soup).title,
        author := (extract_common_fields soup).author,
        published_at := (extract_common_fields soup).published_at,
        updated_at := (extract_common_fields soup).updated_at,
        board := extract_board_from_url url,
        tags := (extract_common_fields soup).tags,
        question_text := none, question_upvotes := none,
        answers := [], reply_count := some 0 } := by
  have hids : idsSeq (containersOf soup) = [] := by
    rw [List.eq_nil_iff_forall_not_mem]
    intro v hv
    unfold idsSeq at hv
    simp only [List.mem_filter, List.mem_filterMap, decide_eq_true_eq] at hv
    obtain ⟨⟨d, hd, hg⟩, hne⟩ := hv
    have hpd := h d hd
    rw [hg] at hpd
    simp [pyTruthyId] at hpd
    exact hne hpd
  have horder : qnaOrderOf soup = [] := by
    rw [qnaOrderOf, hids]
    rfl
  have hcm : containersMut (containersOf soup) = containersOf soup := by
    unfold containersMut
    conv_rhs => rw [← List.map_id (containersOf soup)]
    apply List.map_congr_left
    intro d hd
    simp [h d hd]
  have hqid : ∀ q, questionIdOfSoup soup = some q → q = "" := by
    intro q hq
    unfold questionIdOfSoup chooseQuestionId rawQuestionId at hq
    rw [hcm, horder] at hq
    cases hf : (containersOf soup).find? is_question_div with
    | none =>
        rw [hf] at hq
        simp at hq
    | some d =>
        rw [hf] at hq
        dsimp only at hq
        have hd : d ∈ containersOf soup := List.mem_of_find?_eq_some hf
        have hpd := h d hd
        cases hg : get_msg_id d with
        | none =>
            rw [hg] at hq
            simp at hq
        | some s =>
            rw [hg] at hq
            simp at hq
            rw [hg] at hpd
            simp [pyTruthyId] at hpd
            rw [← hq]
            exact hpd
  have h1 : (extract_flat_qna soup url).1 = none := by
    rw [(extract_flat_qna_question soup url).1]
    cases hq : questionIdOfSoup soup with
    | none => rfl
    | some q =>
        have := hqid q hq
        subst this
        simp
  have h2 : (extract_flat_qna soup url).2.1 = none := by
    rw [(extract_flat_qna_question soup url).2]
    cases hq : questionIdOfSoup soup with
    | none => rfl
    | some q =>
        have := hqid q hq
        subst this
        simp
  have h3 : (extract_flat_qna soup url).2.2.1 = [] := by
    rw [extract_flat_qna_answers]
    have hai : answerIdsOf soup = [] := by
      unfold answerIdsOf
      cases questionIdOfSoup soup <;> simp [horder]
    rw [hai]
    rfl
  have h4 : (extract_flat_qna soup url).2.2.2 = 0 := by
    rw [extract_flat_qna_count, h3]
    rfl
  unfold parse_qna_page
  dsimp only
  rw [h1, h2, h3, h4]

/-- A Q&A page whose one candidate container has an id that resolves to
no message identifier. -/
def c9Soup : Node :=
  Node.elem "[document]" [] [
    Node.elem "div" [("id", "message-abc")] [c1Body "Orphan text."]]

/-- Witness for C9 at the concrete page. -/
theorem claim_C9_witness :
    parse_qna_page "https://ex/q" c9Soup =
      { url := "https://ex/q", lastmod_from_sitemap := none, content_type := "qna",
        title := (extract_common_fields c9Soup).title,
        author := (extract_common_fields c9Soup).author,
        published_at := (extract_common_fields c9Soup).published_at,
        updated_at := (extract_common_fields c9Soup).updated_at,
        board := extract_board_from_url "https://ex/q",
        tags := (extract_common_fields c9Soup).tags,
        question_text := none, question_upvotes := none,
        answers := [], reply_count := some 0 } :=
  claim_C9 "https://ex/q" c9Soup (by decide)

/-- C10: when the first question-marked container carries no resolvable
identifier, the marked search yields nothing — no later marked container
is consulted — and the chosen question identifier falls back to the
first deduplicated identifier. -/
theorem claim_C10 (soup : Node) (d : Node)
    (hfind : (containersMut (containersOf soup)).find? is_question_div = some d)
    (hid : get_msg_id d = none) :
    rawQuestionId (containersMut (containersOf soup)) = none ∧
    questionIdOfSoup soup = (qnaOrderOf soup).head? := by
  have hraw : rawQuestionId (containersMut (containersOf soup)) = none := by
    unfold rawQuestionId
    rw [hfind]
    exact hid
  refine ⟨hraw, ?_⟩
  unfold questionIdOfSoup chooseQuestionId
  rw [hraw]

/-- A page whose first question-marked container resolves to no
identifier while a later marked container would resolve to 9; the first
identifier in appearance order is 5. -/
def c10Soup : Node :=
  Node.elem "[document]" [] [
    Node.elem "div" [("id", "message-abc"), ("class", "lia-message-view-question")]
      [c1Body "Broken marked container."],
    Node.elem "div" [("id", "message-5")] [c1Body "First answer."],
    Node.elem "div" [("id", "message-9"), ("class", "lia-message-view-question")]
      [c1Body "Real question body."]]

/-- Witness for C10: the fallback promotes identifier 5, not the later
marked container's 9. -/
theorem claim_C10_witness :
    (rawQuestionId (containersMut (containersOf c10Soup)) = none ∧
      questionIdOfSoup c10Soup = (qnaOrderOf c10Soup).head?) ∧
    questionIdOfSoup c10Soup = some "5" :=
  ⟨claim_C10 c10Soup
      (Node.elem "div" [("id", "message-abc"), ("class", "lia-message-view-question")]
        [c1Body "Broken marked container."])
      (by decide) (by decide),
    by decide⟩

/-- Witness for the amended C1 at the concrete page. -/
theorem claim_C1_witness :
    (extract_flat_qna c1Soup "https://ex").2.2.1.filter
        (fun a => a.message_id = some "55") =
      (if questionIdOfSoup c1Soup = some "55" then []
       else [applyJsonAccept c1Soup "55" (mergedAnswerOf "https://ex" c1Soup "55")]) :=
  (claim_C1 c1Soup "https://ex" "55" (by decide) (by decide)).1

end SapScraper
